import Mathlib

/-!
Verification of the client-side caching and data-freshness layer of the
hederalp-frontend repository: the in-memory TTL/LRU cache inside the
Zustand state store (`src/store/enhancedLPStore.ts`), the offline
service-worker caching strategies (`public/sw.js`), and the shared API
error-normalization layer (`src/utils/api.ts`).

The TypeScript code is shallowly embedded: JS `Map` objects become
insertion-ordered association lists, `Date.now()` becomes an explicit
`now : Int` argument (milliseconds), JS numbers used for counters and
rates become `Nat`/`ℚ`, and the asynchronous fetch strategies become
pure functions of the cached entry and the network outcome.
-/

namespace HederaLP

/-! ## Data model of the State Cache (`src/store/enhancedLPStore.ts`) -/

/-- `CacheEntry<T>` from `enhancedLPStore.ts`: payload plus creation time,
access counter and last-access time (both times in ms, as `Date.now()`). -/
structure CacheEntry (α : Type) where
  data : α
  timestamp : Int
  accessCount : Nat
  lastAccessed : Int
deriving Repr, DecidableEq

/-- `UserPreferences` from `enhancedLPStore.ts`.  `cacheExpiry` is in
minutes, `maxCacheSize` in entries; the remaining fields never enter any
cache computation. -/
structure UserPreferences where
  theme : String
  defaultTimeframe : String
  autoSave : Bool
  exportFormat : String
  chartAnimations : Bool
  cacheExpiry : Nat
  maxCacheSize : Nat
deriving Repr, DecidableEq

/-- `PerformanceMetrics` from `enhancedLPStore.ts`.  The JS numbers that
hold exact counters are `Nat`; the derived average and hit rate are `ℚ`. -/
structure PerformanceMetrics where
  analysesRun : Nat
  lastAnalysisTime : Option Int
  averageAnalysisTime : ℚ
  cacheHitRate : ℚ
  totalCacheHits : Nat
  totalCacheMisses : Nat
deriving Repr, DecidableEq

/-- `defaultPreferences` from `enhancedLPStore.ts`. -/
def defaultPreferences : UserPreferences :=
  { theme := "light"
    defaultTimeframe := "1H"
    autoSave := true
    exportFormat := "csv"
    chartAnimations := true
    cacheExpiry := 30
    maxCacheSize := 100 }

/-- `defaultPerformance` from `enhancedLPStore.ts`: all counters zero and
`cacheHitRate` initialised to the number `0`. -/
def defaultPerformance : PerformanceMetrics :=
  { analysesRun := 0
    lastAnalysisTime := none
    averageAnalysisTime := 0
    cacheHitRate := 0
    totalCacheHits := 0
    totalCacheMisses := 0 }

/-- A JS `Map` keyed by strings, embedded as an insertion-ordered
association list (JS `Map` iteration order is insertion order). -/
abbrev JSMap (α : Type) := List (String × α)

/-- `Map.get`: the value stored under `k`, if any. -/
def mapGet {α : Type} : JSMap α → String → Option α
  | [], _ => none
  | (k', v) :: rest, k => if k' = k then some v else mapGet rest k

/-- `Map.set`: overwrite in place if the key is present (JS `Map.set`
keeps the original insertion position), otherwise append at the end. -/
def mapSet {α : Type} : JSMap α → String → α → JSMap α
  | [], k, v => [(k, v)]
  | (k', v') :: rest, k, v =>
      if k' = k then (k, v) :: rest else (k', v') :: mapSet rest k v

/-- `Map.delete`: remove the entry stored under `k` (JS `Map` keys are
unique, so removing the first occurrence is exact). -/
def mapDelete {α : Type} : JSMap α → String → JSMap α
  | [], _ => []
  | (k', v') :: rest, k => if k' = k then rest else (k', v') :: mapDelete rest k

/-- The slice of the Zustand store state that the caching layer reads and
writes: `preferences`, the three cache buckets, and `performance`.
The payload type `α` is opaque to every cache computation (it stands for
`AdvancedLPAnalysis`, `Pool[]` and the OHLCV `any` alike). -/
structure StoreState (α : Type) where
  preferences : UserPreferences
  analyses : JSMap (CacheEntry α)
  pools : Option (CacheEntry α)
  ohlcv : JSMap (CacheEntry α)
  performance : PerformanceMetrics
deriving Repr, DecidableEq

/-- The store as created: default preferences, empty cache buckets,
`defaultPerformance`. -/
def initialStoreState (α : Type) : StoreState α :=
  { preferences := defaultPreferences
    analyses := []
    pools := none
    ohlcv := []
    performance := defaultPerformance }

/-! ## State Cache operations -/

/-- `trackCacheHit`: bump `totalCacheHits` and recompute
`cacheHitRate = totalCacheHits / (totalCacheHits + totalCacheMisses)`. -/
def trackCacheHit {α : Type} (s : StoreState α) : StoreState α :=
  let hits := s.performance.totalCacheHits + 1
  let misses := s.performance.totalCacheMisses
  { s with performance :=
      { s.performance with
          totalCacheHits := hits
          cacheHitRate := (hits : ℚ) / ((hits : ℚ) + (misses : ℚ)) } }

/-- `trackCacheMiss`: bump `totalCacheMisses` and recompute
`cacheHitRate = totalCacheHits / (totalCacheHits + totalCacheMisses)`. -/
def trackCacheMiss {α : Type} (s : StoreState α) : StoreState α :=
  let hits := s.performance.totalCacheHits
  let misses := s.performance.totalCacheMisses + 1
  { s with performance :=
      { s.performance with
          totalCacheMisses := misses
          cacheHitRate := (hits : ℚ) / ((hits : ℚ) + (misses : ℚ)) } }

/-- `cacheExpiry` (minutes) converted to milliseconds, as in
`isDataStale`: `cacheExpiry * 60 * 1000`. -/
def expiryMs (p : UserPreferences) : Int :=
  (p.cacheExpiry : Int) * 60 * 1000

/-- `isDataStale(timestamp)`: `Date.now() - timestamp > cacheExpiry * 60 * 1000`,
with `Date.now()` passed explicitly as `now`. -/
def isDataStale {α : Type} (s : StoreState α) (now timestamp : Int) : Bool :=
  decide (now - timestamp > expiryMs s.preferences)

/-- The entry `setCached*` stores: `timestamp = lastAccessed = Date.now()`
and `accessCount = 0`. -/
def freshEntry {α : Type} (data : α) (now : Int) : CacheEntry α :=
  { data := data, timestamp := now, accessCount := 0, lastAccessed := now }

/-- The in-place update a cache hit performs on an entry:
`entry.accessCount++; entry.lastAccessed = Date.now()`. -/
def touchedEntry {α : Type} (e : CacheEntry α) (now : Int) : CacheEntry α :=
  { e with accessCount := e.accessCount + 1, lastAccessed := now }

/-- `getCachedAnalysis(key)`: absent key records a miss; a stale entry is
deleted and records a miss; otherwise the entry's `accessCount` is bumped,
`lastAccessed` is set to `Date.now()`, a hit is recorded and the stored
data is returned.  Returns the JS return value together with the store
state after the call. -/
def getCachedAnalysis {α : Type} (key : String) (now : Int) (s : StoreState α) :
    Option α × StoreState α :=
  match mapGet s.analyses key with
  | none => (none, trackCacheMiss s)
  | some entry =>
      if isDataStale s now entry.timestamp then
        (none, trackCacheMiss { s with analyses := mapDelete s.analyses key })
      else
        (some entry.data,
         trackCacheHit { s with analyses := mapSet s.analyses key (touchedEntry entry now) })

/-- `pruneCache`: if the analyses map holds more than `maxCacheSize`
entries, sort them by `lastAccessed` ascending (JS comparator
`a.lastAccessed - b.lastAccessed`; `Array.prototype.sort` is stable, as is
`List.mergeSort`) and keep only the final `maxCacheSize` entries
(`entries.slice(entries.length - maxCacheSize)`). -/
def pruneCache {α : Type} (s : StoreState α) : StoreState α :=
  if s.analyses.length ≤ s.preferences.maxCacheSize then s
  else
    let sorted :=
      s.analyses.mergeSort (fun a b => decide (a.2.lastAccessed ≤ b.2.lastAccessed))
    { s with analyses := sorted.drop (sorted.length - s.preferences.maxCacheSize) }

/-- `setCachedAnalysis(key, data)`: store a fresh entry (overwriting any
prior entry for `key`), then prune if the new map exceeds
`preferences.maxCacheSize`. -/
def setCachedAnalysis {α : Type} (key : String) (data : α) (now : Int)
    (s : StoreState α) : StoreState α :=
  let newAnalyses := mapSet s.analyses key (freshEntry data now)
  let s1 := { s with analyses := newAnalyses }
  if newAnalyses.length > s.preferences.maxCacheSize then pruneCache s1 else s1

/-- `getCachedPools()`: same contract as `getCachedAnalysis` for the single
pools entry. -/
def getCachedPools {α : Type} (now : Int) (s : StoreState α) :
    Option α × StoreState α :=
  match s.pools with
  | none => (none, trackCacheMiss s)
  | some entry =>
      if isDataStale s now entry.timestamp then
        (none, trackCacheMiss { s with pools := none })
      else
        (some entry.data, trackCacheHit { s with pools := some (touchedEntry entry now) })

/-- `setCachedPools(pools)`: store a fresh pools entry. -/
def setCachedPools {α : Type} (data : α) (now : Int) (s : StoreState α) :
    StoreState α :=
  { s with pools := some (freshEntry data now) }

/-- `getCachedOHLCV(key)`: same contract as `getCachedAnalysis`, on the
OHLCV map. -/
def getCachedOHLCV {α : Type} (key : String) (now : Int) (s : StoreState α) :
    Option α × StoreState α :=
  match mapGet s.ohlcv key with
  | none => (none, trackCacheMiss s)
  | some entry =>
      if isDataStale s now entry.timestamp then
        (none, trackCacheMiss { s with ohlcv := mapDelete s.ohlcv key })
      else
        (some entry.data,
         trackCacheHit { s with ohlcv := mapSet s.ohlcv key (touchedEntry entry now) })

/-- `setCachedOHLCV(key, data)`: store a fresh entry in the OHLCV map.
Unlike `setCachedAnalysis`, the source performs no size check and never
prunes this map. -/
def setCachedOHLCV {α : Type} (key : String) (data : α) (now : Int)
    (s : StoreState α) : StoreState α :=
  { s with ohlcv := mapSet s.ohlcv key (freshEntry data now) }

/-- `clearCache()`: empty all three cache buckets; performance counters are
untouched. -/
def clearCache {α : Type} (s : StoreState α) : StoreState α :=
  { s with analyses := [], pools := none, ohlcv := [] }

/-- `trackAnalysis(duration)`: bump `analysesRun`, stamp
`lastAnalysisTime` and update the running average. -/
def trackAnalysis {α : Type} (duration : ℚ) (now : Int) (s : StoreState α) :
    StoreState α :=
  let runs := s.performance.analysesRun + 1
  let avg :=
    if runs = 1 then duration
    else (s.performance.averageAnalysisTime * ((runs : ℚ) - 1) + duration) / (runs : ℚ)
  { s with performance :=
      { s.performance with
          analysesRun := runs
          lastAnalysisTime := some now
          averageAnalysisTime := avg } }

/-- `updatePreferences(updates)` merges a partial record into
`preferences`; since `updates` may set every field, the reachable
preference values are exactly the arbitrary replacements, which is how we
embed it. -/
def updatePreferences {α : Type} (p : UserPreferences) (s : StoreState α) :
    StoreState α :=
  { s with preferences := p }

/-- `getPerformanceStats()`: returns the live `performance` slice. -/
def getPerformanceStats {α : Type} (s : StoreState α) : PerformanceMetrics :=
  s.performance

/-! ## Offline Cache model (`public/sw.js`) -/

/-- The fixed static manifest `STATIC_ASSETS` from `sw.js`. -/
def STATIC_ASSETS : List String :=
  ["/", "/index.html", "/static/js/main.js", "/static/css/main.css", "/manifest.json"]

/-- The slice of a fetched `Response` the service worker inspects:
`status`, `ok`, the `Date` header (already parsed to ms since epoch,
`none` when the header is missing) and the body. -/
structure SWResponse where
  status : Nat
  ok : Bool
  dateHeaderMs : Option Int
  body : String
deriving Repr, DecidableEq

/-- `cache.addAll(assets)`: fetches every listed asset; the Cache API
commits the batch only when every fetch succeeds, and otherwise rejects
without storing anything.  `env a = none` models a failed fetch of `a`. -/
def cacheAddAll (env : String → Option SWResponse) :
    List String → Option (List (String × SWResponse))
  | [] => some []
  | a :: rest =>
      match env a with
      | none => none
      | some r =>
          match cacheAddAll env rest with
          | none => none
          | some l => some ((a, r) :: l)

/-- Outcome of the `install` event handler: whether the promise handed to
`event.waitUntil` fulfilled (fulfilment lets the worker reach the
`installed`/`waiting` state and later activate; rejection discards the
version), the contents committed to the static bucket, and whether
`self.skipWaiting()` ran. -/
structure InstallOutcome where
  installCompleted : Bool
  staticCache : List (String × SWResponse)
  skipWaitingCalled : Bool
deriving Repr, DecidableEq

/-- The `install` listener of `sw.js`: `caches.open(...).then(cache =>
cache.addAll(STATIC_ASSETS)).then(() => self.skipWaiting()).catch(error =>
console.error(...))`.  The trailing `.catch` handles the rejection of
`cache.addAll`, so the promise given to `event.waitUntil` fulfils in both
branches: on failure nothing was committed (the `addAll` batch is atomic)
and `skipWaiting` is skipped, but the install still completes. -/
def installHandler (env : String → Option SWResponse) : InstallOutcome :=
  match cacheAddAll env STATIC_ASSETS with
  | some entries =>
      { installCompleted := true, staticCache := entries, skipWaitingCalled := true }
  | none =>
      { installCompleted := true, staticCache := [], skipWaitingCalled := false }

/-- Whether `pre` is a prefix of `l`. -/
def isPrefixList : List Char → List Char → Bool
  | [], _ => true
  | _ :: _, [] => false
  | a :: as, b :: bs => a = b && isPrefixList as bs

/-- Whether `pat` occurs as a contiguous run inside `l`. -/
def containsSub (pat : List Char) : List Char → Bool
  | [] => isPrefixList pat []
  | c :: rest => isPrefixList pat (c :: rest) || containsSub pat rest

/-- `url.pathname.includes(pat)` for the patterns used in `sw.js`. -/
def pathIncludes (path pat : String) : Bool :=
  containsSub pat.data path.data

/-- Five minutes in milliseconds, the API freshness threshold of
`apiCacheStrategy`. -/
def fiveMinutesMs : Int := 5 * 60 * 1000

/-- What one run of an `sw.js` fetch strategy did: the response it settled
with (`none` models the rejection propagating to the page), the
write-through into the dynamic bucket (if any), and whether `fetch` was
invoked at all. -/
structure ApiFetchOutcome where
  result : Option SWResponse
  cacheWrite : Option SWResponse
  networkUsed : Bool
deriving Repr, DecidableEq

/-- The synthesized offline health response of `apiCacheStrategy`:
`status: 503` with a JSON body and no `Date` header. -/
def offlineHealthResponse : SWResponse :=
  { status := 503
    ok := false
    dateHeaderMs := none
    body := "\x7b\"status\":\"offline\",\"message\":\"Service worker offline mode\"\x7d" }

/-- The network half of `apiCacheStrategy` (its final `try/catch`): try
`fetch`; on success cache the response when `networkResponse.ok` and
return it; on failure return the (possibly stale) cached copy when one
exists, otherwise rethrow. -/
def apiNetworkPart (cached net : Option SWResponse) : ApiFetchOutcome :=
  match net with
  | some r =>
      { result := some r
        cacheWrite := if r.ok then some r else none
        networkUsed := true }
  | none =>
      match cached with
      | some c => { result := some c, cacheWrite := none, networkUsed := true }
      | none => { result := none, cacheWrite := none, networkUsed := true }

/-- `apiCacheStrategy(request)` from `sw.js`, as a pure function of the
request path, the entry the cache lookup found, the network outcome
(`none` = `fetch` rejected) and the clock.  Health paths go network-first
with a synthesized 503 fallback.  Other API requests take the cached copy
when `new Date() - new Date(headers.get('date') || 0) < fiveMinutes`
without touching the network, and otherwise run `apiNetworkPart`. -/
def apiCacheStrategy (path : String) (cached : Option SWResponse)
    (net : Option SWResponse) (now : Int) : ApiFetchOutcome :=
  if pathIncludes path "/health" then
    match net with
    | some r => { result := some r, cacheWrite := none, networkUsed := true }
    | none =>
        match cached with
        | some c => { result := some c, cacheWrite := none, networkUsed := true }
        | none => { result := some offlineHealthResponse, cacheWrite := none, networkUsed := true }
  else
    match cached with
    | some c =>
        if now - c.dateHeaderMs.getD 0 < fiveMinutesMs then
          { result := some c, cacheWrite := none, networkUsed := false }
        else
          apiNetworkPart cached net
    | none => apiNetworkPart cached net

/-- A plain successful response used by witnesses. -/
def okResp : SWResponse :=
  { status := 200, ok := true, dateHeaderMs := none, body := "ok" }

/-- Fetch environment for the C5 counterexample: every static asset
fetches fine except `/manifest.json`, which fails. -/
def c5env : String → Option SWResponse :=
  fun a => if a = "/manifest.json" then none else some okResp

/-- A cached API response whose `Date` header is at epoch 0 — stale for
any realistic clock. -/
def staleResp : SWResponse :=
  { status := 200, ok := true, dateHeaderMs := some 0, body := "cached" }

/-- A live network response used by witnesses. -/
def freshNetResp : SWResponse :=
  { status := 200, ok := true, dateHeaderMs := some 1000000, body := "net" }

/-- A cached API response with no `Date` header at all. -/
def noDateResp : SWResponse :=
  { status := 200, ok := true, dateHeaderMs := none, body := "nodate" }

/-! ## Error normalization (`src/utils/api.ts`) -/

/-- The slice of an axios `error.response` the interceptor reads:
`status` and `data?.error`. -/
structure AxiosResponse where
  status : Nat
  dataError : Option String
deriving Repr, DecidableEq

/-- The slice of an axios error object the interceptor reads. -/
structure AxiosError where
  response : Option AxiosResponse
  code : Option String
  message : Option String
deriving Repr, DecidableEq

/-- JS `a || b` for an optional string `a`: both `undefined` and the empty
string are falsy. -/
def jsStringOr (a : Option String) (b : String) : String :=
  match a with
  | some s => if s = "" then b else s
  | none => b

/-- The response interceptor's error branch in `api.ts`: `404` and `500`
first, then `ECONNABORTED`, then a truthy `response.data.error`, else
`error.message || 'An unexpected error occurred'`. -/
def normalizeApiError (e : AxiosError) : String :=
  if e.response.map AxiosResponse.status = some 404 then
    "Resource not found. Please check your inputs."
  else if e.response.map AxiosResponse.status = some 500 then
    "Server error. Please try again later."
  else if e.code = some "ECONNABORTED" then
    "Request timeout. The analysis is taking longer than expected."
  else
    match e.response.bind AxiosResponse.dataError with
    | some s => if s = "" then jsStringOr e.message "An unexpected error occurred" else s
    | none => jsStringOr e.message "An unexpected error occurred"

/-- Backend 404 whose body also carries an `error` field (C9 witness). -/
def err404 : AxiosError :=
  { response := some { status := 404, dataError := some "pool not found" }
    code := none
    message := some "Request failed with status code 404" }

/-- Backend 500 (C9 witness). -/
def err500 : AxiosError :=
  { response := some { status := 500, dataError := none }
    code := none
    message := some "Request failed with status code 500" }

/-- Client-side timeout, no response at all (C9 witness). -/
def errTimeout : AxiosError :=
  { response := none
    code := some "ECONNABORTED"
    message := some "timeout of 30000ms exceeded" }

/-- Other failed status with an `error` field in the body (C9 witness). -/
def errBody : AxiosError :=
  { response := some { status := 418, dataError := some "teapot" }
    code := none
    message := some "Request failed" }

/-- Failure with nothing but a raw message (C9 witness). -/
def errRaw : AxiosError :=
  { response := none, code := none, message := some "Network Error" }

/-! ## Cache keys (`generateCacheKey` in `src/store/enhancedLPStore.ts`)

`generateCacheKey(poolId, form)` returns
`btoa(JSON.stringify(keyData))` where `keyData` is an object literal with
a fixed property order: the `poolId` argument followed by the eight
strategy-form fields listed in the source.  We embed the numeric form
fields as `ℚ` (JS numbers; floating-point is outside the model, so the
JS artefacts `-0`, `NaN` and `Infinity` do not arise).  `JSON.stringify`
prints a finite JS number as its shortest round-tripping decimal, which
is injective on those values; `jsNumStr` models it by the canonical
`num/den` rendering of the rational, keeping the two properties the
cache-key proofs use: injectivity, and a character set (digits, `-`, `/`)
disjoint from the JSON delimiters `"` `,` `:` and braces. -/

/-- `LPStrategyForm` from `src/types`: the strategy form.  `poolId` is the
one field `generateCacheKey` does not read (the key uses the separately
passed `poolId` argument instead). -/
structure LPStrategyForm where
  poolId : String
  priceLower : ℚ
  priceUpper : ℚ
  liquidityUsd : ℚ
  bearCaseDrop : ℚ
  bullCaseRise : ℚ
  timeHorizonDays : ℚ
  advancedMode : Bool
  backtestMode : Bool
deriving Repr, DecidableEq

/-- `defaultForm` from `enhancedLPStore.ts`, with 0.22 and 0.26 as exact
rationals. -/
def defaultForm : LPStrategyForm :=
  { poolId := "0.0.3964804"
    priceLower := 22 / 100
    priceUpper := 26 / 100
    liquidityUsd := 10000
    bearCaseDrop := 20
    bullCaseRise := 20
    timeHorizonDays := 30
    advancedMode := false
    backtestMode := false }

/-- The `keyData` object literal built inside `generateCacheKey`, with its
property order. -/
structure KeyData where
  poolId : String
  priceLower : ℚ
  priceUpper : ℚ
  liquidityUsd : ℚ
  bearCaseDrop : ℚ
  bullCaseRise : ℚ
  timeHorizonDays : ℚ
  advancedMode : Bool
  backtestMode : Bool
deriving Repr, DecidableEq

/-- The decimal digit character for `d < 10`. -/
def digitChar10 (d : Nat) : Char := Char.ofNat (48 + d)

/-- Decimal rendering of a natural number (the characters `JSON.stringify`
prints for a nonnegative integer). -/
def natStr (n : Nat) : String :=
  if n = 0 then "0" else String.mk (((Nat.digits 10 n).reverse).map digitChar10)

/-- Decimal rendering of an integer. -/
def intStr (i : Int) : String :=
  if i < 0 then "-" ++ natStr i.natAbs else natStr i.natAbs

/-- Modelled `JSON.stringify` rendering of a JS number (see the section
comment): integers print as their decimal digits, other rationals as
`num/den` in lowest terms. -/
def jsNumStr (q : ℚ) : String :=
  if q.den = 1 then intStr q.num else intStr q.num ++ "/" ++ natStr q.den

/-- `JSON.stringify` rendering of a boolean. -/
def jsBoolStr (b : Bool) : String := if b then "true" else "false"

/-- Lowercase hexadecimal digit for `n < 16`. -/
def hexDigit (n : Nat) : Char :=
  if n < 10 then Char.ofNat (48 + n) else Char.ofNat (87 + n)

/-- How `JSON.stringify` escapes one character inside a string literal:
`"` and `\` get a backslash, the named control characters get their short
escapes, other control characters get `\u00xx`, everything else is
emitted as itself. -/
def jsonEscapeChar (c : Char) : List Char :=
  if c = '"' then ['\\', '"']
  else if c = '\\' then ['\\', '\\']
  else if c = '\x08' then ['\\', 'b']
  else if c = '\x09' then ['\\', 't']
  else if c = '\x0a' then ['\\', 'n']
  else if c = '\x0c' then ['\\', 'f']
  else if c = '\x0d' then ['\\', 'r']
  else if c.toNat < 32 then
    ['\\', 'u', '0', '0', hexDigit (c.toNat / 16), hexDigit (c.toNat % 16)]
  else [c]

/-- `JSON.stringify` rendering of a string: escaped content between
double quotes. -/
def jsonStringLit (s : String) : String :=
  "\"" ++ String.mk (s.data.flatMap jsonEscapeChar) ++ "\""

/-- `JSON.stringify(keyData)`: object-literal property order is preserved
by `JSON.stringify`, giving this fixed shape. -/
def jsonStringifyKeyData (k : KeyData) : String :=
  "\x7b\"poolId\":" ++ jsonStringLit k.poolId ++
  ",\"priceLower\":" ++ jsNumStr k.priceLower ++
  ",\"priceUpper\":" ++ jsNumStr k.priceUpper ++
  ",\"liquidityUsd\":" ++ jsNumStr k.liquidityUsd ++
  ",\"bearCaseDrop\":" ++ jsNumStr k.bearCaseDrop ++
  ",\"bullCaseRise\":" ++ jsNumStr k.bullCaseRise ++
  ",\"timeHorizonDays\":" ++ jsNumStr k.timeHorizonDays ++
  ",\"advancedMode\":" ++ jsBoolStr k.advancedMode ++
  ",\"backtestMode\":" ++ jsBoolStr k.backtestMode ++ "\x7d"

/-- The base64 alphabet: `A`–`Z`, `a`–`z`, `0`–`9`, `+`, `/`. -/
def base64Char (v : Nat) : Char :=
  if v < 26 then Char.ofNat (65 + v)
  else if v < 52 then Char.ofNat (97 + (v - 26))
  else if v < 62 then Char.ofNat (48 + (v - 52))
  else if v = 62 then '+' else '/'

/-- Base64 encoding of a byte sequence, with `=` padding, as `btoa`
produces it. -/
def base64Encode : List Nat → List Char
  | [] => []
  | [b1] => [base64Char (b1 / 4), base64Char (b1 % 4 * 16), '=', '=']
  | [b1, b2] =>
      [base64Char (b1 / 4), base64Char (b1 % 4 * 16 + b2 / 16),
       base64Char (b2 % 16 * 4), '=']
  | b1 :: b2 :: b3 :: rest =>
      base64Char (b1 / 4) :: base64Char (b1 % 4 * 16 + b2 / 16) ::
      base64Char (b2 % 16 * 4 + b3 / 64) :: base64Char (b3 % 64) :: base64Encode rest

/-- `btoa(s)`: base64 over the code units of `s`.  `btoa` is defined (does
not throw) exactly when every code unit is below 256; the injectivity
lemmas below carry that hypothesis. -/
def btoa (s : String) : String :=
  String.mk (base64Encode (s.data.map Char.toNat))

/-- `generateCacheKey(poolId, form)` from `enhancedLPStore.ts`:
`btoa(JSON.stringify(keyData))`.  Note that `form.poolId` is not read;
the `poolId` argument takes its place in `keyData`. -/
def generateCacheKey (poolId : String) (form : LPStrategyForm) : String :=
  let keyData : KeyData :=
    { poolId := poolId
      priceLower := form.priceLower
      priceUpper := form.priceUpper
      liquidityUsd := form.liquidityUsd
      bearCaseDrop := form.bearCaseDrop
      bullCaseRise := form.bullCaseRise
      timeHorizonDays := form.timeHorizonDays
      advancedMode := form.advancedMode
      backtestMode := form.backtestMode }
  btoa (jsonStringifyKeyData keyData)

/-! Decoders used only to prove the encoders injective. -/

/-- Value of a base64 alphabet character (left inverse of `base64Char` on
`v < 64`). -/
def base64CharDec (c : Char) : Nat :=
  let n := c.toNat
  if 65 ≤ n ∧ n ≤ 90 then n - 65
  else if 97 ≤ n ∧ n ≤ 122 then n - 97 + 26
  else if 48 ≤ n ∧ n ≤ 57 then n - 48 + 52
  else if n = 43 then 62
  else 63

/-- Base64 decoding (left inverse of `base64Encode` on byte inputs). -/
def base64Decode : List Char → List Nat
  | c1 :: c2 :: c3 :: c4 :: rest =>
      let d1 := base64CharDec c1
      let d2 := base64CharDec c2
      let d3 := base64CharDec c3
      let d4 := base64CharDec c4
      if rest = [] then
        if c3 = '=' then [d1 * 4 + d2 / 16]
        else if c4 = '=' then [d1 * 4 + d2 / 16, d2 % 16 * 16 + d3 / 4]
        else [d1 * 4 + d2 / 16, d2 % 16 * 16 + d3 / 4, d3 % 4 * 64 + d4]
      else
        (d1 * 4 + d2 / 16) :: (d2 % 16 * 16 + d3 / 4) :: (d3 % 4 * 64 + d4) ::
          base64Decode rest
  | _ => []

/-- Value of a decimal digit character (left inverse of `digitChar10`). -/
def decDigitVal (c : Char) : Nat := c.toNat - 48

/-- Reads back the number printed by `natStr`. -/
def strToNat (s : String) : Nat :=
  Nat.ofDigits 10 ((s.data.map decDigitVal).reverse)

/-- A character that JSON string escaping leaves untouched and that
`btoa` accepts: printable (no control escape), not `"` or `\`, and a
Latin-1 code unit. -/
def PlainChar (c : Char) : Prop :=
  32 ≤ c.toNat ∧ c.toNat < 256 ∧ c ≠ '"' ∧ c ≠ '\\'

/-- A pool identifier made of plain Latin-1 characters (every real pool
id, e.g. `0.0.3964804`, is of this shape). -/
def PlainLatin1 (s : String) : Prop :=
  ∀ c ∈ s.data, PlainChar c

/-! ## Operation traces over the State Cache

The store mutates only through its own actions, so the reachable states
are exactly the results of running a list of these operations from the
initial state.  Every operation that reads `Date.now()` carries its clock
value explicitly. -/

/-- One call into the caching slice of the store. -/
inductive StoreOp (α : Type) where
  | getAnalysis (key : String) (now : Int)
  | setAnalysis (key : String) (data : α) (now : Int)
  | getPoolsOp (now : Int)
  | setPoolsOp (data : α) (now : Int)
  | getOHLCV (key : String) (now : Int)
  | setOHLCV (key : String) (data : α) (now : Int)
  | clear
  | prune
  | setPrefs (p : UserPreferences)
  | trackRun (duration : ℚ) (now : Int)
deriving Repr

/-- The state after one operation (return values discarded). -/
def stepStore {α : Type} (s : StoreState α) : StoreOp α → StoreState α
  | .getAnalysis k now => (getCachedAnalysis k now s).2
  | .setAnalysis k d now => setCachedAnalysis k d now s
  | .getPoolsOp now => (getCachedPools now s).2
  | .setPoolsOp d now => setCachedPools d now s
  | .getOHLCV k now => (getCachedOHLCV k now s).2
  | .setOHLCV k d now => setCachedOHLCV k d now s
  | .clear => clearCache s
  | .prune => pruneCache s
  | .setPrefs p => updatePreferences p s
  | .trackRun d now => trackAnalysis d now s

/-- The state after a whole trace. -/
def runStore {α : Type} (s : StoreState α) : List (StoreOp α) → StoreState α
  | [] => s
  | op :: rest => runStore (stepStore s op) rest

/-- The `Date.now()` value an operation observed, if it reads the clock. -/
def opTime {α : Type} : StoreOp α → Option Int
  | .getAnalysis _ now => some now
  | .setAnalysis _ _ now => some now
  | .getPoolsOp now => some now
  | .setPoolsOp _ now => some now
  | .getOHLCV _ now => some now
  | .setOHLCV _ _ now => some now
  | .trackRun _ now => some now
  | .clear => none
  | .prune => none
  | .setPrefs _ => none

/-- The real-time clock is nondecreasing along a trace: every clock
reading is at least `t` and at least every earlier reading. -/
def timesMono {α : Type} : Int → List (StoreOp α) → Bool
  | _, [] => true
  | t, op :: rest =>
      match opTime op with
      | none => timesMono t rest
      | some t2 => decide (t ≤ t2) && timesMono t2 rest

/-- Observable hit/miss tally of a trace: a `get` that returned data is a
hit, a `get` that returned absent is a miss; no other operation records
either. -/
def observedHM {α : Type} (s : StoreState α) : List (StoreOp α) → Nat × Nat
  | [] => (0, 0)
  | op :: rest =>
      let tail := observedHM (stepStore s op) rest
      match op with
      | .getAnalysis k now =>
          if (getCachedAnalysis k now s).1.isSome then (tail.1 + 1, tail.2)
          else (tail.1, tail.2 + 1)
      | .getPoolsOp now =>
          if (getCachedPools now s).1.isSome then (tail.1 + 1, tail.2)
          else (tail.1, tail.2 + 1)
      | .getOHLCV k now =>
          if (getCachedOHLCV k now s).1.isSome then (tail.1 + 1, tail.2)
          else (tail.1, tail.2 + 1)
      | _ => tail

/-- Ghost read counter for the analyses map, computed from the observable
behaviour of the trace alone: a successful (non-stale) read of `key`
bumps its counter, a `set` of `key` resets it to zero, everything else
leaves it alone. -/
def ghostStep {α : Type} (s : StoreState α) (g : String → Nat) :
    StoreOp α → String → Nat
  | .setAnalysis k _ _ => fun k2 => if k2 = k then 0 else g k2
  | .getAnalysis k now =>
      if (getCachedAnalysis k now s).1.isSome then
        fun k2 => if k2 = k then g k + 1 else g k2
      else g
  | _ => g

/-- Run a trace while tracking the ghost read counters. -/
def runStoreG {α : Type} (s : StoreState α) (g : String → Nat) :
    List (StoreOp α) → StoreState α × (String → Nat)
  | [] => (s, g)
  | op :: rest => runStoreG (stepStore s op) (ghostStep s g op) rest

/-- The stored `cacheHitRate` agrees with
`totalCacheHits / (totalCacheHits + totalCacheMisses)`. -/
def RateConsistent {α : Type} (s : StoreState α) : Prop :=
  s.performance.cacheHitRate
    = (s.performance.totalCacheHits : ℚ)
      / ((s.performance.totalCacheHits : ℚ) + (s.performance.totalCacheMisses : ℚ))

/-- `lastAccessed` never precedes creation and never leads the clock. -/
def entryWF {α : Type} (e : CacheEntry α) (t : Int) : Prop :=
  e.timestamp ≤ e.lastAccessed ∧ e.lastAccessed ≤ t

/-- The store invariant at clock bound `t`: every entry of every bucket
is well-formed and bounded by `t`, and the analyses map has unique keys
(as every JS `Map` does). -/
def StateWF {α : Type} (s : StoreState α) (t : Int) : Prop :=
  (∀ p ∈ s.analyses, entryWF p.2 t) ∧
  (∀ e, s.pools = some e → entryWF e t) ∧
  (∀ p ∈ s.ohlcv, entryWF p.2 t) ∧
  (s.analyses.map Prod.fst).Nodup

/-- Every present analyses entry carries exactly its ghost read count. -/
def GhostOK {α : Type} (s : StoreState α) (g : String → Nat) : Prop :=
  ∀ k e, mapGet s.analyses k = some e → e.accessCount = g k

/-- The clock value after a trace (the last reading, or the start bound
when the trace reads no clock). -/
def lastTime {α : Type} : Int → List (StoreOp α) → Int
  | t, [] => t
  | t, op :: rest => lastTime ((opTime op).getD t) rest

/-- Trace for the C8 witness: one store then a hit and a miss. -/
def c8ops : List (StoreOp Unit) :=
  [.setAnalysis "a" () 0, .getAnalysis "a" 1, .getAnalysis "b" 1]

/-- Trace for the C10 witness: stores, reads, and one stale read. -/
def c10ops : List (StoreOp Unit) :=
  [.setAnalysis "a" () 0, .getAnalysis "a" 1, .getAnalysis "a" 2,
   .setOHLCV "x" () 3, .getAnalysis "a" 2000000]

/-- Concrete store state for the witnesses: one analysis entry stored at
clock 0 under key `k`. -/
def c1state : StoreState Unit :=
  { initialStoreState Unit with
      analyses := [("k", { data := (), timestamp := 0, accessCount := 0, lastAccessed := 0 })] }

/-- Concrete state for the C2 witness: capacity 1, two entries created at
the same `timestamp` but with different `lastAccessed`. -/
def c2state : StoreState Unit :=
  { initialStoreState Unit with
      preferences := { defaultPreferences with maxCacheSize := 1 }
      analyses :=
        [("a", { data := (), timestamp := 0, accessCount := 3, lastAccessed := 5 }),
         ("b", { data := (), timestamp := 0, accessCount := 1, lastAccessed := 9 })] }

/-- Concrete state for the C3 witness and counterexample: capacity 1,
empty cache buckets. -/
def c3state : StoreState Unit :=
  { initialStoreState Unit with
      preferences := { defaultPreferences with maxCacheSize := 1 } }

/-! # Theorems -/

/-! ## JS `Map` lemmas -/

theorem mapGet_mapSet_self {α : Type} (m : JSMap α) (k : String) (v : α) :
    mapGet (mapSet m k v) k = some v := by
  induction m with
  | nil => simp [mapSet, mapGet]
  | cons p rest ih =>
      obtain ⟨k2, v2⟩ := p
      by_cases h : k2 = k
      · simp [mapSet, mapGet, h]
      · simp [mapSet, mapGet, h, ih]

theorem mapGet_mapSet_ne {α : Type} (m : JSMap α) (k k2 : String) (v : α)
    (h : k2 ≠ k) : mapGet (mapSet m k v) k2 = mapGet m k2 := by
  have hk : k ≠ k2 := Ne.symm h
  induction m with
  | nil => simp [mapSet, mapGet, hk]
  | cons p rest ih =>
      obtain ⟨k3, v3⟩ := p
      by_cases h3 : k3 = k
      · subst h3
        simp [mapSet, mapGet, hk]
      · by_cases h4 : k3 = k2
        · simp [mapSet, mapGet, h3, h4, h]
        · simp [mapSet, mapGet, h3, h4, ih]

theorem mapGet_eq_none_of_not_mem_keys {α : Type} (m : JSMap α) (k : String)
    (h : k ∉ m.map Prod.fst) : mapGet m k = none := by
  induction m with
  | nil => simp [mapGet]
  | cons p rest ih =>
      obtain ⟨k2, v2⟩ := p
      simp only [List.map_cons, List.mem_cons] at h
      push_neg at h
      have h21 : k2 ≠ k := Ne.symm h.1
      simp [mapGet, h21, ih h.2]

theorem mapGet_mapDelete_self {α : Type} (m : JSMap α) (k : String)
    (hnd : (m.map Prod.fst).Nodup) : mapGet (mapDelete m k) k = none := by
  induction m with
  | nil => simp [mapDelete, mapGet]
  | cons p rest ih =>
      obtain ⟨k2, v2⟩ := p
      simp only [List.map_cons, List.nodup_cons] at hnd
      by_cases h : k2 = k
      · subst h
        simp only [mapDelete, if_pos rfl]
        exact mapGet_eq_none_of_not_mem_keys rest k2 hnd.1
      · simp [mapDelete, mapGet, h, ih hnd.2]

theorem mapGet_mapDelete_ne {α : Type} (m : JSMap α) (k k2 : String)
    (h : k2 ≠ k) : mapGet (mapDelete m k) k2 = mapGet m k2 := by
  have hk : k ≠ k2 := Ne.symm h
  induction m with
  | nil => simp [mapDelete]
  | cons p rest ih =>
      obtain ⟨k3, v3⟩ := p
      by_cases h3 : k3 = k
      · subst h3
        simp [mapDelete, mapGet, hk]
      · by_cases h4 : k3 = k2
        · simp [mapDelete, mapGet, h3, h4, h]
        · simp [mapDelete, mapGet, h3, h4, ih]

theorem mem_mapSet {α : Type} (m : JSMap α) (k : String) (v : α) (p : String × α)
    (h : p ∈ mapSet m k v) : p = (k, v) ∨ p ∈ m := by
  induction m with
  | nil => simpa [mapSet] using h
  | cons q rest ih =>
      obtain ⟨k2, v2⟩ := q
      by_cases h2 : k2 = k
      · subst h2
        have hset : mapSet ((k2, v2) :: rest) k2 v = (k2, v) :: rest := by
          simp [mapSet]
        rw [hset] at h
        rcases List.mem_cons.mp h with hp | hp
        · exact Or.inl hp
        · exact Or.inr (List.mem_cons_of_mem _ hp)
      · have hset : mapSet ((k2, v2) :: rest) k v = (k2, v2) :: mapSet rest k v := by
          simp [mapSet, h2]
        rw [hset] at h
        rcases List.mem_cons.mp h with hp | hp
        · exact Or.inr (by simp [hp])
        · rcases ih hp with hp | hp
          · exact Or.inl hp
          · exact Or.inr (List.mem_cons_of_mem _ hp)

theorem mapDelete_sublist {α : Type} (m : JSMap α) (k : String) :
    (mapDelete m k).Sublist m := by
  induction m with
  | nil => simp [mapDelete]
  | cons p rest ih =>
      obtain ⟨k2, v2⟩ := p
      by_cases h : k2 = k
      · subst h
        have : mapDelete ((k2, v2) :: rest) k2 = rest := by simp [mapDelete]
        rw [this]
        exact List.sublist_cons_self _ _
      · have : mapDelete ((k2, v2) :: rest) k = (k2, v2) :: mapDelete rest k := by
          simp [mapDelete, h]
        rw [this]
        exact List.cons_sublist_cons.mpr ih

theorem mapGet_eq_some_mem {α : Type} (m : JSMap α) (k : String) (v : α)
    (h : mapGet m k = some v) : (k, v) ∈ m := by
  induction m with
  | nil => simp [mapGet] at h
  | cons p rest ih =>
      obtain ⟨k2, v2⟩ := p
      by_cases h2 : k2 = k
      · subst h2
        simp only [mapGet, if_true, eq_self_iff_true, Option.some.injEq] at h
        subst h
        exact List.mem_cons_self _ _
      · simp only [mapGet, if_neg h2] at h
        exact List.mem_cons_of_mem _ (ih h)

theorem mem_mapGet_of_nodup {α : Type} (m : JSMap α) (k : String) (v : α)
    (hnd : (m.map Prod.fst).Nodup) (h : (k, v) ∈ m) : mapGet m k = some v := by
  induction m with
  | nil => simp at h
  | cons p rest ih =>
      obtain ⟨k2, v2⟩ := p
      simp only [List.map_cons, List.nodup_cons] at hnd
      rcases List.mem_cons.mp h with h | h
      · obtain ⟨rfl, rfl⟩ : k = k2 ∧ v = v2 := by simpa using h
        simp [mapGet]
      · have hk : k2 ≠ k := by
          intro hh
          subst hh
          exact hnd.1 (List.mem_map.mpr ⟨(k2, v), h, rfl⟩)
        simp [mapGet, hk, ih hnd.2 h]

/-! ## C1: the State Cache `get` contract -/

/-- C1: State Cache `get` contract for `getCachedAnalysis`: (a) an absent
key returns absent, records a miss and leaves the map untouched; (b) an
entry with `now - timestamp > cacheExpiry` in ms returns absent, deletes
the entry and records a miss, and a repeated `get` of the same key (at any
clock) is again a miss with no resurrection; (c) a fresh entry
(`now - timestamp ≤ cacheExpiry`) returns the stored data, bumps
`accessCount` by one, stamps `lastAccessed := now` and records a hit; and
(d) a hit is recorded iff a fresh entry exists. -/
theorem C1_get_contract {α : Type} (s : StoreState α) (k : String) (now : Int)
    (hnd : (s.analyses.map Prod.fst).Nodup) :
    (mapGet s.analyses k = none →
      (getCachedAnalysis k now s).1 = none ∧
      (getCachedAnalysis k now s).2.performance.totalCacheMisses
        = s.performance.totalCacheMisses + 1 ∧
      (getCachedAnalysis k now s).2.performance.totalCacheHits
        = s.performance.totalCacheHits ∧
      (getCachedAnalysis k now s).2.analyses = s.analyses) ∧
    (∀ e, mapGet s.analyses k = some e →
      expiryMs s.preferences < now - e.timestamp →
      (getCachedAnalysis k now s).1 = none ∧
      (getCachedAnalysis k now s).2.performance.totalCacheMisses
        = s.performance.totalCacheMisses + 1 ∧
      (getCachedAnalysis k now s).2.performance.totalCacheHits
        = s.performance.totalCacheHits ∧
      mapGet (getCachedAnalysis k now s).2.analyses k = none ∧
      (∀ later : Int,
        (getCachedAnalysis k later (getCachedAnalysis k now s).2).1 = none ∧
        (getCachedAnalysis k later
            (getCachedAnalysis k now s).2).2.performance.totalCacheMisses
          = s.performance.totalCacheMisses + 2)) ∧
    (∀ e, mapGet s.analyses k = some e →
      now - e.timestamp ≤ expiryMs s.preferences →
      (getCachedAnalysis k now s).1 = some e.data ∧
      (getCachedAnalysis k now s).2.performance.totalCacheHits
        = s.performance.totalCacheHits + 1 ∧
      (getCachedAnalysis k now s).2.performance.totalCacheMisses
        = s.performance.totalCacheMisses ∧
      mapGet (getCachedAnalysis k now s).2.analyses k
        = some { e with accessCount := e.accessCount + 1, lastAccessed := now }) ∧
    ((getCachedAnalysis k now s).2.performance.totalCacheHits
        = s.performance.totalCacheHits + 1 ↔
      ∃ e, mapGet s.analyses k = some e ∧ now - e.timestamp ≤ expiryMs s.preferences) := by
  refine ⟨?_, ?_, ?_, ?_⟩
  · intro h
    simp [getCachedAnalysis, h, trackCacheMiss]
  · intro e he hs
    have hstale : isDataStale s now e.timestamp = true := by
      simp only [isDataStale, decide_eq_true_eq]
      omega
    have hdel : mapGet (mapDelete s.analyses k) k = none :=
      mapGet_mapDelete_self s.analyses k hnd
    refine ⟨?_, ?_, ?_, ?_, ?_⟩
    · simp [getCachedAnalysis, he, hstale]
    · simp [getCachedAnalysis, he, hstale, trackCacheMiss]
    · simp [getCachedAnalysis, he, hstale, trackCacheMiss]
    · simp [getCachedAnalysis, he, hstale, trackCacheMiss, hdel]
    · intro later
      constructor
      · simp [getCachedAnalysis, he, hstale, trackCacheMiss, hdel]
      · simp [getCachedAnalysis, he, hstale, trackCacheMiss, hdel]
  · intro e he hs
    have hfresh : isDataStale s now e.timestamp = false := by
      simp only [isDataStale, decide_eq_false_iff_not]
      omega
    refine ⟨?_, ?_, ?_, ?_⟩
    · simp [getCachedAnalysis, he, hfresh]
    · simp [getCachedAnalysis, he, hfresh, trackCacheHit]
    · simp [getCachedAnalysis, he, hfresh, trackCacheHit]
    · simp [getCachedAnalysis, he, hfresh, trackCacheHit, mapGet_mapSet_self,
        touchedEntry]
  · constructor
    · intro hh
      match hm : mapGet s.analyses k with
      | none =>
          exfalso
          simp [getCachedAnalysis, hm, trackCacheMiss] at hh
      | some e =>
          refine ⟨e, rfl, ?_⟩
          by_contra hcon
          have hstale : isDataStale s now e.timestamp = true := by
            simp only [isDataStale, decide_eq_true_eq]
            omega
          simp [getCachedAnalysis, hm, hstale, trackCacheMiss] at hh
    · rintro ⟨e, he, hs⟩
      have hfresh : isDataStale s now e.timestamp = false := by
        simp only [isDataStale, decide_eq_false_iff_not]
        omega
      simp [getCachedAnalysis, he, hfresh, trackCacheHit]

/-- Witness for C1: exercises all three branches of the contract on the
concrete state `c1state` (one entry stored at clock 0, TTL 30 minutes). -/
theorem C1_get_contract_witness :
    ((getCachedAnalysis "z" 10 c1state).1 = none ∧
      (getCachedAnalysis "z" 10 c1state).2.performance.totalCacheMisses
        = c1state.performance.totalCacheMisses + 1) ∧
    ((getCachedAnalysis "k" 10 c1state).1 = some () ∧
      (getCachedAnalysis "k" 10 c1state).2.performance.totalCacheHits
        = c1state.performance.totalCacheHits + 1) ∧
    ((getCachedAnalysis "k" 2000000 c1state).1 = none ∧
      mapGet (getCachedAnalysis "k" 2000000 c1state).2.analyses "k" = none) := by
  have hnd : ((c1state.analyses).map Prod.fst).Nodup := by decide
  have habs := (C1_get_contract c1state "z" 10 hnd).1 (by decide)
  have hhit := (C1_get_contract c1state "k" 10 hnd).2.2.1
    { data := (), timestamp := 0, accessCount := 0, lastAccessed := 0 }
    (by decide) (by decide)
  have hmiss := (C1_get_contract c1state "k" 2000000 hnd).2.1
    { data := (), timestamp := 0, accessCount := 0, lastAccessed := 0 }
    (by decide) (by decide)
  exact ⟨⟨habs.1, habs.2.1⟩, ⟨hhit.1, hhit.2.1⟩, ⟨hmiss.1, hmiss.2.2.2.1⟩⟩

/-! ## C2: LRU pruning -/

theorem pruneCache_length {α : Type} (s : StoreState α)
    (h : s.preferences.maxCacheSize < s.analyses.length) :
    (pruneCache s).analyses.length = s.preferences.maxCacheSize := by
  have hlt : ¬ s.analyses.length ≤ s.preferences.maxCacheSize := by omega
  simp only [pruneCache, if_neg hlt, List.length_drop, List.length_mergeSort]
  omega

/-- C2: when the analyses map holds more than `maxCacheSize` entries and
the entries' `lastAccessed` stamps are pairwise distinct, `pruneCache`
keeps exactly `maxCacheSize` entries and they are exactly the ones with
the largest `lastAccessed` values: the remaining entries partition the
original map into an evicted part and a kept part, with every evicted
entry's `lastAccessed` strictly below every kept entry's.  Only
`lastAccessed` enters the comparator, so entries created at the same
`timestamp` but read at different times evict independently. -/
theorem C2_lru_pruning {α : Type} (s : StoreState α)
    (hlen : s.preferences.maxCacheSize < s.analyses.length)
    (hdist : s.analyses.Pairwise
      (fun a b => a.2.lastAccessed ≠ b.2.lastAccessed)) :
    (pruneCache s).analyses.length = s.preferences.maxCacheSize ∧
    ∃ evicted, (evicted ++ (pruneCache s).analyses).Perm s.analyses ∧
      ∀ a ∈ evicted, ∀ b ∈ (pruneCache s).analyses,
        a.2.lastAccessed < b.2.lastAccessed := by
  have hlt : ¬ s.analyses.length ≤ s.preferences.maxCacheSize := by omega
  have htrans : ∀ a b c : String × CacheEntry α,
      (fun a b : String × CacheEntry α =>
        decide (a.2.lastAccessed ≤ b.2.lastAccessed)) a b = true →
      (fun a b : String × CacheEntry α =>
        decide (a.2.lastAccessed ≤ b.2.lastAccessed)) b c = true →
      (fun a b : String × CacheEntry α =>
        decide (a.2.lastAccessed ≤ b.2.lastAccessed)) a c = true := by
    intro a b c h1 h2
    simp only [decide_eq_true_eq] at h1 h2 ⊢
    omega
  have htotal : ∀ a b : String × CacheEntry α,
      ((fun a b : String × CacheEntry α =>
        decide (a.2.lastAccessed ≤ b.2.lastAccessed)) a b ||
       (fun a b : String × CacheEntry α =>
        decide (a.2.lastAccessed ≤ b.2.lastAccessed)) b a) = true := by
    intro a b
    rcases le_total a.2.lastAccessed b.2.lastAccessed with h | h <;> simp [h]
  have hperm := List.mergeSort_perm s.analyses
    (fun a b : String × CacheEntry α => decide (a.2.lastAccessed ≤ b.2.lastAccessed))
  have hsorted := List.sorted_mergeSort htrans htotal s.analyses
  set sorted := s.analyses.mergeSort
    (fun a b : String × CacheEntry α => decide (a.2.lastAccessed ≤ b.2.lastAccessed))
    with hsdef
  have hslen : sorted.length = s.analyses.length := List.length_mergeSort s.analyses
  have hpc : (pruneCache s).analyses
      = sorted.drop (sorted.length - s.preferences.maxCacheSize) := by
    simp only [pruneCache, if_neg hlt]
  have hdistS : sorted.Pairwise (fun a b => a.2.lastAccessed ≠ b.2.lastAccessed) := by
    exact (hperm.pairwise_iff (fun hxy => Ne.symm hxy)).mpr hdist
  refine ⟨by rw [hpc, List.length_drop]; omega,
    sorted.take (sorted.length - s.preferences.maxCacheSize), ?_, ?_⟩
  · rw [hpc, List.take_append_drop]
    exact hperm
  · intro a ha b hb
    rw [hpc] at hb
    have hle : decide (a.2.lastAccessed ≤ b.2.lastAccessed) = true := by
      have := (List.pairwise_append.mp
        (by rw [List.take_append_drop
          (sorted.length - s.preferences.maxCacheSize) sorted]; exact hsorted)).2.2
      exact this a ha b hb
    have hne : a.2.lastAccessed ≠ b.2.lastAccessed := by
      have := (List.pairwise_append.mp
        (by rw [List.take_append_drop
          (sorted.length - s.preferences.maxCacheSize) sorted]; exact hdistS)).2.2
      exact this a ha b hb
    simp only [decide_eq_true_eq] at hle
    omega

/-- Witness for C2 at `c2state`. -/
theorem C2_lru_pruning_witness :
    (pruneCache c2state).analyses.length = c2state.preferences.maxCacheSize ∧
    ∃ evicted, (evicted ++ (pruneCache c2state).analyses).Perm c2state.analyses ∧
      ∀ a ∈ evicted, ∀ b ∈ (pruneCache c2state).analyses,
        a.2.lastAccessed < b.2.lastAccessed :=
  C2_lru_pruning c2state (by decide) (by decide)

/-! ## C3: the State Cache `set` contract (corrected) -/

theorem length_mapSet {α : Type} (m : JSMap α) (k : String) (v : α) :
    (mapSet m k v).length
      = if (mapGet m k).isSome then m.length else m.length + 1 := by
  induction m with
  | nil => simp [mapSet, mapGet]
  | cons p rest ih =>
      obtain ⟨k2, v2⟩ := p
      by_cases h : k2 = k
      · simp [mapSet, mapGet, h]
      · by_cases h2 : (mapGet rest k).isSome <;> simp_all [mapSet, mapGet, h]

/-- Counterexample to C3 as stated: with `maxCacheSize = 1`, two
insertions into the OHLCV map leave it at size 2 — exceeding the bound —
and no pruning is triggered; even an explicit `pruneCache` does not touch
the OHLCV map.  The all-maps-alike pruning clause of C3 fails. -/
theorem C3_counterexample :
    (setCachedOHLCV "b" () 0 (setCachedOHLCV "a" () 0 c3state)).ohlcv.length = 2 ∧
    (setCachedOHLCV "b" () 0 (setCachedOHLCV "a" () 0 c3state)).preferences.maxCacheSize = 1 ∧
    (pruneCache (setCachedOHLCV "b" () 0 (setCachedOHLCV "a" () 0 c3state))).ohlcv
      = (setCachedOHLCV "b" () 0 (setCachedOHLCV "a" () 0 c3state)).ohlcv := by
  decide

/-- C3 (amended): both `set` operations store a fresh entry with
`timestamp = lastAccessed = now` and `accessCount = 0`, overwriting any
prior entry for the key.  After insertion into the *analyses* map, if the
map exceeds `maxCacheSize`, pruning runs and brings it back to exactly
`maxCacheSize`.  Insertion into the *OHLCV* map never triggers pruning:
its size is bounded by nothing (it grows by one for each new key). -/
theorem C3_set_contract {α : Type} (s : StoreState α) (k : String) (d : α)
    (now : Int) :
    ((mapSet s.analyses k (freshEntry d now)).length ≤ s.preferences.maxCacheSize →
      (setCachedAnalysis k d now s).analyses = mapSet s.analyses k (freshEntry d now) ∧
      mapGet (setCachedAnalysis k d now s).analyses k = some (freshEntry d now)) ∧
    (s.preferences.maxCacheSize < (mapSet s.analyses k (freshEntry d now)).length →
      (setCachedAnalysis k d now s).analyses.length = s.preferences.maxCacheSize) ∧
    ((freshEntry d now).timestamp = now ∧ (freshEntry d now).lastAccessed = now ∧
      (freshEntry d now).accessCount = 0 ∧ (freshEntry d now).data = d) ∧
    ((setCachedOHLCV k d now s).ohlcv = mapSet s.ohlcv k (freshEntry d now) ∧
      mapGet (setCachedOHLCV k d now s).ohlcv k = some (freshEntry d now) ∧
      (setCachedOHLCV k d now s).ohlcv.length
        = if (mapGet s.ohlcv k).isSome then s.ohlcv.length else s.ohlcv.length + 1) := by
  refine ⟨?_, ?_, ⟨rfl, rfl, rfl, rfl⟩, rfl, ?_, ?_⟩
  · intro h
    have hnot : ¬ s.preferences.maxCacheSize < (mapSet s.analyses k (freshEntry d now)).length := by
      omega
    constructor
    · simp only [setCachedAnalysis, if_neg hnot]
    · simp only [setCachedAnalysis, if_neg hnot]
      exact mapGet_mapSet_self _ _ _
  · intro h
    simp only [setCachedAnalysis, if_pos h]
    exact pruneCache_length _ (by simpa using h)
  · simp only [setCachedOHLCV]
    exact mapGet_mapSet_self _ _ _
  · simp only [setCachedOHLCV]
    exact length_mapSet _ _ _

/-- Witness for C3 (amended), exercising the no-prune branch (overwrite of
an existing key) and the prune branch (insertion over capacity). -/
theorem C3_set_contract_witness :
    ((setCachedAnalysis "a" () 5 c2state).analyses.length
        = c2state.preferences.maxCacheSize) ∧
    ((setCachedAnalysis "a" () 5 c3state).analyses
        = mapSet c3state.analyses "a" (freshEntry () 5)) ∧
    (mapGet (setCachedOHLCV "a" () 5 c3state).ohlcv "a" = some (freshEntry () 5)) := by
  have h1 := (C3_set_contract c2state "a" () 5).2.1 (by decide)
  have h2 := (C3_set_contract c3state "a" () 5).1 (by decide)
  have h3 := (C3_set_contract c3state "a" () 5).2.2.2.2.1
  exact ⟨h1, h2.1, h3⟩

/-! ## C5: install atomicity (corrected) -/

theorem cacheAddAll_all_ok {env : String → Option SWResponse} :
    ∀ assets : List String, (∀ a ∈ assets, (env a).isSome) →
      ∃ l, cacheAddAll env assets = some l ∧ l.map Prod.fst = assets := by
  intro assets
  induction assets with
  | nil => exact fun _ => ⟨[], rfl, rfl⟩
  | cons a rest ih =>
      intro h
      obtain ⟨r, hr⟩ := Option.isSome_iff_exists.mp (h a (List.mem_cons_self a rest))
      obtain ⟨l, hl, hmap⟩ := ih (fun b hb => h b (List.mem_cons_of_mem a hb))
      refine ⟨(a, r) :: l, ?_, by simp [hmap]⟩
      simp [cacheAddAll, hr, hl]

theorem cacheAddAll_fails {env : String → Option SWResponse} :
    ∀ assets : List String, (∃ a ∈ assets, env a = none) →
      cacheAddAll env assets = none := by
  intro assets
  induction assets with
  | nil =>
      rintro ⟨a, ha, _⟩
      simp at ha
  | cons b rest ih =>
      rintro ⟨a, ha, hnone⟩
      rcases List.mem_cons.mp ha with h | h
      · subst h
        simp [cacheAddAll, hnone]
      · match henv : env b with
        | none => simp [cacheAddAll, henv]
        | some r => simp [cacheAddAll, henv, ih ⟨a, h, hnone⟩]

/-- Counterexample to C5 as stated: `/manifest.json` is in the static
manifest and fails to fetch, yet `installCompleted = true`: the trailing
`.catch` in the install listener swallows the `cache.addAll` rejection,
so the promise handed to `event.waitUntil` fulfils and this worker
version still finishes installing and proceeds toward activation. -/
theorem C5_counterexample :
    c5env "/manifest.json" = none ∧
    "/manifest.json" ∈ STATIC_ASSETS ∧
    (installHandler c5env).installCompleted = true := by
  decide

/-- C5 (amended): when any manifest asset fails to fetch, the atomic
`cache.addAll` batch commits nothing — the static bucket is not partially
populated — and `skipWaiting()` does not run; but the caught rejection
lets the install promise fulfil, so the worker version still completes
install (with an empty static bucket) rather than aborting activation.
When every asset fetches, the bucket holds exactly the manifest and
`skipWaiting` runs. -/
theorem C5_install_behaviour (env : String → Option SWResponse) :
    ((∃ a ∈ STATIC_ASSETS, env a = none) →
      installHandler env =
        { installCompleted := true, staticCache := [], skipWaitingCalled := false }) ∧
    ((∀ a ∈ STATIC_ASSETS, (env a).isSome) →
      (installHandler env).installCompleted = true ∧
      (installHandler env).skipWaitingCalled = true ∧
      (installHandler env).staticCache.map Prod.fst = STATIC_ASSETS) := by
  constructor
  · intro h
    simp [installHandler, cacheAddAll_fails STATIC_ASSETS h]
  · intro h
    obtain ⟨l, hl, hmap⟩ := cacheAddAll_all_ok STATIC_ASSETS h
    simp [installHandler, hl, hmap]

/-- Witness for C5 (amended): the failing environment commits nothing and
skips `skipWaiting`; the all-ok environment commits the whole manifest. -/
theorem C5_install_behaviour_witness :
    installHandler c5env =
      { installCompleted := true, staticCache := [], skipWaitingCalled := false } ∧
    (installHandler (fun _ => some okResp)).staticCache.map Prod.fst = STATIC_ASSETS :=
  ⟨(C5_install_behaviour c5env).1 ⟨"/manifest.json", by decide, by decide⟩,
   ((C5_install_behaviour (fun _ => some okResp)).2 (fun _ _ => rfl)).2.2⟩

/-! ## C6 and C7: the API fetch strategy -/

theorem apiNetworkPart_networkUsed (cached net : Option SWResponse) :
    (apiNetworkPart cached net).networkUsed = true := by
  cases net <;> cases cached <;> rfl

/-- C6: for every non-health API GET: a cached response whose `Date`
header is within five minutes of now is returned without touching the
network; otherwise the network is attempted and a successful fetch is
returned, written through to the dynamic bucket exactly when `ok`; a
network failure falls back to the cached copy, even a stale one, when one
exists; and with no cached copy the network failure propagates. -/
theorem C6_api_stale_serve (path : String) (cached net : Option SWResponse)
    (now : Int) (hnh : pathIncludes path "/health" = false) :
    (∀ c, cached = some c → now - c.dateHeaderMs.getD 0 < fiveMinutesMs →
      apiCacheStrategy path cached net now =
        { result := some c, cacheWrite := none, networkUsed := false }) ∧
    (∀ r, net = some r →
      (cached = none ∨
        ∀ c, cached = some c → fiveMinutesMs ≤ now - c.dateHeaderMs.getD 0) →
      apiCacheStrategy path cached net now =
        { result := some r, cacheWrite := if r.ok then some r else none,
          networkUsed := true }) ∧
    (∀ c, cached = some c → fiveMinutesMs ≤ now - c.dateHeaderMs.getD 0 →
      net = none →
      apiCacheStrategy path cached net now =
        { result := some c, cacheWrite := none, networkUsed := true }) ∧
    (cached = none → net = none →
      (apiCacheStrategy path cached net now).result = none) := by
  refine ⟨?_, ?_, ?_, ?_⟩
  · rintro c rfl hfresh
    simp [apiCacheStrategy, hnh, hfresh]
  · rintro r rfl hc
    cases hcc : cached with
    | none => simp [apiCacheStrategy, hnh, apiNetworkPart]
    | some c =>
        rcases hc with h | h
        · rw [hcc] at h
          exact absurd h (by simp)
        · have hs := h c hcc
          have hnot : ¬ (now - c.dateHeaderMs.getD 0 < fiveMinutesMs) := by omega
          simp [apiCacheStrategy, hnh, hnot, apiNetworkPart]
  · rintro c rfl hs rfl
    have hnot : ¬ (now - c.dateHeaderMs.getD 0 < fiveMinutesMs) := by omega
    simp [apiCacheStrategy, hnh, hnot, apiNetworkPart]
  · rintro rfl rfl
    simp [apiCacheStrategy, hnh, apiNetworkPart]

/-- Witness for C6: a five-minutes-stale cached copy is served on network
failure; with nothing cached the failure propagates. -/
theorem C6_api_stale_serve_witness :
    apiCacheStrategy "/api/pools" (some staleResp) none 1000000 =
      { result := some staleResp, cacheWrite := none, networkUsed := true } ∧
    (apiCacheStrategy "/api/pools" none none 1000000).result = none := by
  have h := C6_api_stale_serve "/api/pools" (some staleResp) none 1000000 (by decide)
  have h2 := C6_api_stale_serve "/api/pools" none none 1000000 (by decide)
  exact ⟨h.2.2.1 staleResp rfl (by decide) rfl, h2.2.2.2 rfl rfl⟩

/-- C7: the freshness decision of the API strategy is computed solely
from the cached response's `Date` header read back at lookup time against
the five-minute threshold — two cached responses carrying the same header
value always yield the same cache-versus-network decision, whatever their
other fields — and a cached response with a missing header is dated epoch
0 (`headers.get('date') || 0`), hence treated as stale at every clock at
least five minutes past the epoch: the fresh-cache fast path is never
taken for it. -/
theorem C7_date_header_freshness (path : String) (c : SWResponse)
    (net : Option SWResponse) (now : Int)
    (hnh : pathIncludes path "/health" = false) :
    (c.dateHeaderMs = none → fiveMinutesMs ≤ now →
      (apiCacheStrategy path (some c) net now).networkUsed = true) ∧
    (∀ c2 net2, c2.dateHeaderMs = c.dateHeaderMs →
      (apiCacheStrategy path (some c2) net2 now).networkUsed
        = (apiCacheStrategy path (some c) net now).networkUsed) := by
  constructor
  · intro hd hnow
    have hnot : ¬ (now - c.dateHeaderMs.getD 0 < fiveMinutesMs) := by
      rw [hd]
      simp only [Option.getD_none]
      omega
    simp [apiCacheStrategy, hnh, hnot, apiNetworkPart_networkUsed]
  · intro c2 net2 hdeq
    by_cases hfresh : now - c.dateHeaderMs.getD 0 < fiveMinutesMs
    · simp [apiCacheStrategy, hnh, hdeq, hfresh]
    · simp [apiCacheStrategy, hnh, hdeq, hfresh, apiNetworkPart_networkUsed]

/-- Witness for C7: a cached entry without a `Date` header forces the
network path at a realistic clock. -/
theorem C7_date_header_freshness_witness :
    (apiCacheStrategy "/api/ohlcv" (some noDateResp) (some freshNetResp) 1000000).networkUsed
      = true :=
  (C7_date_header_freshness "/api/ohlcv" noDateResp (some freshNetResp) 1000000
    (by decide)).1 rfl (by decide)

/-! ## C9: error normalization -/

/-- C9: the response interceptor maps failures in fixed precedence order:
status 404 always yields the resource-not-found message (even when the
body carries an `error` field), then status 500 the server-error message,
then `ECONNABORTED` the timeout message, then a truthy backend `error`
body field is surfaced verbatim, and otherwise the raw `error.message`
is used. -/
theorem C9_error_normalization (e : AxiosError) :
    (e.response.map AxiosResponse.status = some 404 →
      normalizeApiError e = "Resource not found. Please check your inputs.") ∧
    (e.response.map AxiosResponse.status ≠ some 404 →
      e.response.map AxiosResponse.status = some 500 →
      normalizeApiError e = "Server error. Please try again later.") ∧
    (e.response.map AxiosResponse.status ≠ some 404 →
      e.response.map AxiosResponse.status ≠ some 500 →
      e.code = some "ECONNABORTED" →
      normalizeApiError e
        = "Request timeout. The analysis is taking longer than expected.") ∧
    (∀ s, e.response.map AxiosResponse.status ≠ some 404 →
      e.response.map AxiosResponse.status ≠ some 500 →
      e.code ≠ some "ECONNABORTED" →
      e.response.bind AxiosResponse.dataError = some s → s ≠ "" →
      normalizeApiError e = s) ∧
    (∀ msg, e.response.map AxiosResponse.status ≠ some 404 →
      e.response.map AxiosResponse.status ≠ some 500 →
      e.code ≠ some "ECONNABORTED" →
      (e.response.bind AxiosResponse.dataError = none ∨
        e.response.bind AxiosResponse.dataError = some "") →
      e.message = some msg → msg ≠ "" →
      normalizeApiError e = msg) := by
  refine ⟨?_, ?_, ?_, ?_, ?_⟩
  · intro h404
    simp [normalizeApiError, h404]
  · intro h404 h500
    simp [normalizeApiError, h404, h500]
  · intro h404 h500 hcode
    simp [normalizeApiError, h404, h500, hcode]
  · intro s h404 h500 hcode hde hs
    simp [normalizeApiError, h404, h500, hcode, hde, hs]
  · intro msg h404 h500 hcode hde hmsg hne
    rcases hde with hde | hde <;>
      simp [normalizeApiError, h404, h500, hcode, hde, hmsg, hne, jsStringOr]

/-- Witness for C9: all five precedence branches at concrete errors; in
particular the 404 whose body carries an `error` field still maps to the
resource-not-found message. -/
theorem C9_error_normalization_witness :
    normalizeApiError err404 = "Resource not found. Please check your inputs." ∧
    normalizeApiError err500 = "Server error. Please try again later." ∧
    normalizeApiError errTimeout
      = "Request timeout. The analysis is taking longer than expected." ∧
    normalizeApiError errBody = "teapot" ∧
    normalizeApiError errRaw = "Network Error" :=
  ⟨(C9_error_normalization err404).1 (by decide),
   (C9_error_normalization err500).2.1 (by decide) (by decide),
   (C9_error_normalization errTimeout).2.2.1 (by decide) (by decide) (by decide),
   (C9_error_normalization errBody).2.2.2.1 "teapot" (by decide) (by decide)
     (by decide) (by decide) (by decide),
   (C9_error_normalization errRaw).2.2.2.2 "Network Error" (by decide) (by decide)
     (by decide) (Or.inl (by decide)) (by decide) (by decide)⟩

/-! ## C8: hit-rate read model (corrected) -/

theorem pruneCache_performance {α : Type} (s : StoreState α) :
    (pruneCache s).performance = s.performance := by
  unfold pruneCache
  split <;> rfl

theorem setCachedAnalysis_performance {α : Type} (k : String) (d : α) (now : Int)
    (s : StoreState α) :
    (setCachedAnalysis k d now s).performance = s.performance := by
  simp only [setCachedAnalysis]
  split
  · rw [pruneCache_performance]
  · rfl

theorem getCachedAnalysis_hitmiss {α : Type} (k : String) (now : Int)
    (s : StoreState α) :
    ((getCachedAnalysis k now s).1.isSome = true →
      (getCachedAnalysis k now s).2.performance.totalCacheHits
        = s.performance.totalCacheHits + 1 ∧
      (getCachedAnalysis k now s).2.performance.totalCacheMisses
        = s.performance.totalCacheMisses) ∧
    ((getCachedAnalysis k now s).1.isSome = false →
      (getCachedAnalysis k now s).2.performance.totalCacheHits
        = s.performance.totalCacheHits ∧
      (getCachedAnalysis k now s).2.performance.totalCacheMisses
        = s.performance.totalCacheMisses + 1) ∧
    RateConsistent (getCachedAnalysis k now s).2 := by
  rcases hm : mapGet s.analyses k with _ | e
  · refine ⟨?_, ?_, ?_⟩ <;>
      simp [getCachedAnalysis, hm, trackCacheMiss, RateConsistent]
  · by_cases hst : isDataStale s now e.timestamp = true
    · refine ⟨?_, ?_, ?_⟩ <;>
        simp [getCachedAnalysis, hm, hst, trackCacheMiss, RateConsistent]
    · refine ⟨?_, ?_, ?_⟩ <;>
        simp [getCachedAnalysis, hm, hst, trackCacheHit, RateConsistent]

theorem getCachedPools_hitmiss {α : Type} (now : Int) (s : StoreState α) :
    ((getCachedPools now s).1.isSome = true →
      (getCachedPools now s).2.performance.totalCacheHits
        = s.performance.totalCacheHits + 1 ∧
      (getCachedPools now s).2.performance.totalCacheMisses
        = s.performance.totalCacheMisses) ∧
    ((getCachedPools now s).1.isSome = false →
      (getCachedPools now s).2.performance.totalCacheHits
        = s.performance.totalCacheHits ∧
      (getCachedPools now s).2.performance.totalCacheMisses
        = s.performance.totalCacheMisses + 1) ∧
    RateConsistent (getCachedPools now s).2 := by
  rcases hm : s.pools with _ | e
  · refine ⟨?_, ?_, ?_⟩ <;>
      simp [getCachedPools, hm, trackCacheMiss, RateConsistent]
  · by_cases hst : isDataStale s now e.timestamp = true
    · refine ⟨?_, ?_, ?_⟩ <;>
        simp [getCachedPools, hm, hst, trackCacheMiss, RateConsistent]
    · refine ⟨?_, ?_, ?_⟩ <;>
        simp [getCachedPools, hm, hst, trackCacheHit, RateConsistent]

theorem getCachedOHLCV_hitmiss {α : Type} (k : String) (now : Int)
    (s : StoreState α) :
    ((getCachedOHLCV k now s).1.isSome = true →
      (getCachedOHLCV k now s).2.performance.totalCacheHits
        = s.performance.totalCacheHits + 1 ∧
      (getCachedOHLCV k now s).2.performance.totalCacheMisses
        = s.performance.totalCacheMisses) ∧
    ((getCachedOHLCV k now s).1.isSome = false →
      (getCachedOHLCV k now s).2.performance.totalCacheHits
        = s.performance.totalCacheHits ∧
      (getCachedOHLCV k now s).2.performance.totalCacheMisses
        = s.performance.totalCacheMisses + 1) ∧
    RateConsistent (getCachedOHLCV k now s).2 := by
  rcases hm : mapGet s.ohlcv k with _ | e
  · refine ⟨?_, ?_, ?_⟩ <;>
      simp [getCachedOHLCV, hm, trackCacheMiss, RateConsistent]
  · by_cases hst : isDataStale s now e.timestamp = true
    · refine ⟨?_, ?_, ?_⟩ <;>
        simp [getCachedOHLCV, hm, hst, trackCacheMiss, RateConsistent]
    · refine ⟨?_, ?_, ?_⟩ <;>
        simp [getCachedOHLCV, hm, hst, trackCacheHit, RateConsistent]

theorem observedHM_cons {α : Type} (s : StoreState α) (op : StoreOp α)
    (rest : List (StoreOp α)) :
    (observedHM s (op :: rest)).1
      = (observedHM s [op]).1 + (observedHM (stepStore s op) rest).1 ∧
    (observedHM s (op :: rest)).2
      = (observedHM s [op]).2 + (observedHM (stepStore s op) rest).2 := by
  cases op with
  | getAnalysis k now =>
      by_cases h : (getCachedAnalysis k now s).1.isSome = true <;>
        constructor <;> simp [observedHM, h] <;> omega
  | getPoolsOp now =>
      by_cases h : (getCachedPools now s).1.isSome = true <;>
        constructor <;> simp [observedHM, h] <;> omega
  | getOHLCV k now =>
      by_cases h : (getCachedOHLCV k now s).1.isSome = true <;>
        constructor <;> simp [observedHM, h] <;> omega
  | setAnalysis k d now => constructor <;> simp [observedHM]
  | setPoolsOp d now => constructor <;> simp [observedHM]
  | setOHLCV k d now => constructor <;> simp [observedHM]
  | clear => constructor <;> simp [observedHM]
  | prune => constructor <;> simp [observedHM]
  | setPrefs p => constructor <;> simp [observedHM]
  | trackRun d now => constructor <;> simp [observedHM]

theorem stepStore_counters {α : Type} (s : StoreState α) (op : StoreOp α) :
    (stepStore s op).performance.totalCacheHits
      = s.performance.totalCacheHits + (observedHM s [op]).1 ∧
    (stepStore s op).performance.totalCacheMisses
      = s.performance.totalCacheMisses + (observedHM s [op]).2 := by
  cases op with
  | getAnalysis k now =>
      have hg := getCachedAnalysis_hitmiss k now s
      by_cases h : (getCachedAnalysis k now s).1.isSome = true
      · rcases hg.1 h with ⟨h1, h2⟩
        simp [stepStore, observedHM, h, h1, h2]
      · have hb : (getCachedAnalysis k now s).1.isSome = false := by simpa using h
        rcases hg.2.1 hb with ⟨h1, h2⟩
        simp [stepStore, observedHM, h, h1, h2]
  | getPoolsOp now =>
      have hg := getCachedPools_hitmiss now s
      by_cases h : (getCachedPools now s).1.isSome = true
      · rcases hg.1 h with ⟨h1, h2⟩
        simp [stepStore, observedHM, h, h1, h2]
      · have hb : (getCachedPools now s).1.isSome = false := by simpa using h
        rcases hg.2.1 hb with ⟨h1, h2⟩
        simp [stepStore, observedHM, h, h1, h2]
  | getOHLCV k now =>
      have hg := getCachedOHLCV_hitmiss k now s
      by_cases h : (getCachedOHLCV k now s).1.isSome = true
      · rcases hg.1 h with ⟨h1, h2⟩
        simp [stepStore, observedHM, h, h1, h2]
      · have hb : (getCachedOHLCV k now s).1.isSome = false := by simpa using h
        rcases hg.2.1 hb with ⟨h1, h2⟩
        simp [stepStore, observedHM, h, h1, h2]
  | setAnalysis k d now =>
      simp [stepStore, observedHM, setCachedAnalysis_performance]
  | setPoolsOp d now => simp [stepStore, observedHM, setCachedPools]
  | setOHLCV k d now => simp [stepStore, observedHM, setCachedOHLCV]
  | clear => simp [stepStore, observedHM, clearCache]
  | prune => simp [stepStore, observedHM, pruneCache_performance]
  | setPrefs p => simp [stepStore, observedHM, updatePreferences]
  | trackRun d now => simp [stepStore, observedHM, trackAnalysis]

theorem runStore_counters {α : Type} :
    ∀ (ops : List (StoreOp α)) (s : StoreState α),
    (runStore s ops).performance.totalCacheHits
      = s.performance.totalCacheHits + (observedHM s ops).1 ∧
    (runStore s ops).performance.totalCacheMisses
      = s.performance.totalCacheMisses + (observedHM s ops).2 := by
  intro ops
  induction ops with
  | nil => intro s; simp [runStore, observedHM]
  | cons op rest ih =>
      intro s
      have hstep := stepStore_counters s op
      have hih := ih (stepStore s op)
      have hcons := observedHM_cons s op rest
      rw [runStore]
      constructor
      · rw [hih.1, hstep.1, hcons.1]
        omega
      · rw [hih.2, hstep.2, hcons.2]
        omega

theorem rateConsistent_of_performance_eq {α : Type} {s s2 : StoreState α}
    (hp : s2.performance = s.performance) (h : RateConsistent s) :
    RateConsistent s2 := by
  unfold RateConsistent at *
  rw [hp]
  exact h

theorem runStore_rate {α : Type} :
    ∀ (ops : List (StoreOp α)) (s : StoreState α),
    (RateConsistent s ∨ 0 < (observedHM s ops).1 + (observedHM s ops).2) →
    RateConsistent (runStore s ops) := by
  intro ops
  induction ops with
  | nil =>
      intro s h
      rcases h with h | h
      · simpa [runStore] using h
      · simp [observedHM] at h
  | cons op rest ih =>
      intro s h
      rw [runStore]
      apply ih
      cases op with
      | getAnalysis k now => exact Or.inl (getCachedAnalysis_hitmiss k now s).2.2
      | getPoolsOp now => exact Or.inl (getCachedPools_hitmiss now s).2.2
      | getOHLCV k now => exact Or.inl (getCachedOHLCV_hitmiss k now s).2.2
      | setAnalysis k d now =>
          rcases h with h | h
          · exact Or.inl (rateConsistent_of_performance_eq
              (setCachedAnalysis_performance k d now s) h)
          · exact Or.inr (by simpa [observedHM] using h)
      | setPoolsOp d now =>
          rcases h with h | h
          · exact Or.inl (rateConsistent_of_performance_eq rfl h)
          · exact Or.inr (by simpa [observedHM] using h)
      | setOHLCV k d now =>
          rcases h with h | h
          · exact Or.inl (rateConsistent_of_performance_eq rfl h)
          · exact Or.inr (by simpa [observedHM] using h)
      | clear =>
          rcases h with h | h
          · exact Or.inl (rateConsistent_of_performance_eq rfl h)
          · exact Or.inr (by simpa [observedHM] using h)
      | prune =>
          rcases h with h | h
          · exact Or.inl (rateConsistent_of_performance_eq
              (pruneCache_performance s) h)
          · exact Or.inr (by simpa [observedHM] using h)
      | setPrefs p =>
          rcases h with h | h
          · exact Or.inl (rateConsistent_of_performance_eq rfl h)
          · exact Or.inr (by simpa [observedHM] using h)
      | trackRun d now =>
          rcases h with h | h
          · refine Or.inl ?_
            unfold RateConsistent at *
            simpa [stepStore, trackAnalysis] using h
          · exact Or.inr (by simpa [observedHM] using h)

/-- Counterexample to C8 as stated: the freshly created store (zero hits,
zero misses) reports `cacheHitRate = 0` — `defaultPerformance` initialises
the rate to the number 0, not to NaN — contradicting "must never be
reported as 0" in the no-data case. -/
theorem C8_counterexample :
    (getPerformanceStats (initialStoreState Unit)).totalCacheHits = 0 ∧
    (getPerformanceStats (initialStoreState Unit)).totalCacheMisses = 0 ∧
    (getPerformanceStats (initialStoreState Unit)).cacheHitRate = 0 :=
  ⟨rfl, rfl, rfl⟩

/-- C8 (amended): after any trace of store operations from the initial
state in which the `get` calls returned data `h` times and returned
absent `m` times, the counters hold exactly `h` and `m`, and — provided
at least one hit or miss was recorded — `cacheHitRate = h / (h + m)`
exactly (each track call divides afresh, so no drift accumulates).  In
the untouched initial state (`h = m = 0`) the reported rate is the
initialised value `0`, not NaN. -/
theorem C8_hit_rate {α : Type} (ops : List (StoreOp α)) :
    (runStore (initialStoreState α) ops).performance.totalCacheHits
      = (observedHM (initialStoreState α) ops).1 ∧
    (runStore (initialStoreState α) ops).performance.totalCacheMisses
      = (observedHM (initialStoreState α) ops).2 ∧
    (0 < (observedHM (initialStoreState α) ops).1
        + (observedHM (initialStoreState α) ops).2 →
      (runStore (initialStoreState α) ops).performance.cacheHitRate
        = ((observedHM (initialStoreState α) ops).1 : ℚ)
          / (((observedHM (initialStoreState α) ops).1 : ℚ)
             + ((observedHM (initialStoreState α) ops).2 : ℚ))) ∧
    (initialStoreState α).performance.cacheHitRate = 0 := by
  have hc := runStore_counters ops (initialStoreState α)
  have h1 : (runStore (initialStoreState α) ops).performance.totalCacheHits
      = (observedHM (initialStoreState α) ops).1 := by
    simpa [initialStoreState, defaultPerformance] using hc.1
  have h2 : (runStore (initialStoreState α) ops).performance.totalCacheMisses
      = (observedHM (initialStoreState α) ops).2 := by
    simpa [initialStoreState, defaultPerformance] using hc.2
  refine ⟨h1, h2, ?_, rfl⟩
  intro hpos
  have hr := runStore_rate ops (initialStoreState α) (Or.inr hpos)
  unfold RateConsistent at hr
  rw [h1, h2] at hr
  exact hr

/-- Witness for C8 (amended) on the trace `c8ops` (one hit, one miss). -/
theorem C8_hit_rate_witness :
    (runStore (initialStoreState Unit) c8ops).performance.totalCacheHits
      = (observedHM (initialStoreState Unit) c8ops).1 ∧
    (runStore (initialStoreState Unit) c8ops).performance.cacheHitRate
      = ((observedHM (initialStoreState Unit) c8ops).1 : ℚ)
        / (((observedHM (initialStoreState Unit) c8ops).1 : ℚ)
           + ((observedHM (initialStoreState Unit) c8ops).2 : ℚ)) :=
  ⟨(C8_hit_rate c8ops).1, (C8_hit_rate c8ops).2.2.1 (by decide)⟩

/-! ## C10: the CacheEntry invariant -/

theorem entryWF_mono {α : Type} {e : CacheEntry α} {t t2 : Int}
    (h : entryWF e t) (hle : t ≤ t2) : entryWF e t2 :=
  ⟨h.1, le_trans h.2 hle⟩

theorem stateWF_of_fields {α : Type} {s s2 : StoreState α} {t t2 : Int}
    (ha : s2.analyses = s.analyses) (hp : s2.pools = s.pools)
    (ho : s2.ohlcv = s.ohlcv) (h : StateWF s t) (hle : t ≤ t2) :
    StateWF s2 t2 := by
  obtain ⟨hA, hP, hO, hnd⟩ := h
  refine ⟨?_, ?_, ?_, ?_⟩
  · intro p hpm
    exact entryWF_mono (hA p (ha ▸ hpm)) hle
  · intro e he
    exact entryWF_mono (hP e (hp ▸ he)) hle
  · intro p hpm
    exact entryWF_mono (hO p (ho ▸ hpm)) hle
  · rw [ha]
    exact hnd

theorem ghostOK_of_fields {α : Type} {s s2 : StoreState α} {g : String → Nat}
    (ha : s2.analyses = s.analyses) (h : GhostOK s g) : GhostOK s2 g := by
  intro k e he
  exact h k e (ha ▸ he)

theorem keys_mapSet {α : Type} (m : JSMap α) (k : String) (v : α) :
    (mapSet m k v).map Prod.fst
      = if (mapGet m k).isSome then m.map Prod.fst else m.map Prod.fst ++ [k] := by
  induction m with
  | nil => simp [mapSet, mapGet]
  | cons p rest ih =>
      obtain ⟨k2, v2⟩ := p
      by_cases h : k2 = k
      · simp [mapSet, mapGet, h]
      · by_cases h2 : (mapGet rest k).isSome <;> simp_all [mapSet, mapGet, h]

theorem mapGet_isSome_iff_mem_keys {α : Type} (m : JSMap α) (k : String) :
    (mapGet m k).isSome = true ↔ k ∈ m.map Prod.fst := by
  induction m with
  | nil => simp [mapGet]
  | cons p rest ih =>
      obtain ⟨k2, v2⟩ := p
      by_cases h : k2 = k
      · subst h
        simp [mapGet]
      · have h2 : k ≠ k2 := Ne.symm h
        simp [mapGet, h, h2, ih]

theorem keys_nodup_mapSet {α : Type} (m : JSMap α) (k : String) (v : α)
    (hnd : (m.map Prod.fst).Nodup) : ((mapSet m k v).map Prod.fst).Nodup := by
  rw [keys_mapSet]
  by_cases h : (mapGet m k).isSome
  · simp [h, hnd]
  · have hk : k ∉ m.map Prod.fst := by
      intro hmem
      exact h ((mapGet_isSome_iff_mem_keys m k).mpr hmem)
    simp [h, List.nodup_append, hnd, hk]

theorem pruneCache_pools {α : Type} (s : StoreState α) :
    (pruneCache s).pools = s.pools := by
  unfold pruneCache
  split <;> rfl

theorem pruneCache_ohlcv {α : Type} (s : StoreState α) :
    (pruneCache s).ohlcv = s.ohlcv := by
  unfold pruneCache
  split <;> rfl

theorem mem_of_pruneCache {α : Type} (s : StoreState α) (p : String × CacheEntry α)
    (h : p ∈ (pruneCache s).analyses) : p ∈ s.analyses := by
  by_cases hlen : s.analyses.length ≤ s.preferences.maxCacheSize
  · simpa [pruneCache, hlen] using h
  · have hpc : (pruneCache s).analyses
        = (s.analyses.mergeSort
            (fun a b => decide (a.2.lastAccessed ≤ b.2.lastAccessed))).drop
          ((s.analyses.mergeSort
            (fun a b => decide (a.2.lastAccessed ≤ b.2.lastAccessed))).length
            - s.preferences.maxCacheSize) := by
      simp only [pruneCache, if_neg hlen]
    rw [hpc] at h
    have h2 := (List.drop_subset _ _) h
    exact (List.mergeSort_perm s.analyses _).subset h2

theorem pruneCache_keys_nodup {α : Type} (s : StoreState α)
    (hnd : (s.analyses.map Prod.fst).Nodup) :
    ((pruneCache s).analyses.map Prod.fst).Nodup := by
  by_cases hlen : s.analyses.length ≤ s.preferences.maxCacheSize
  · simpa [pruneCache, hlen] using hnd
  · have hpc : (pruneCache s).analyses
        = (s.analyses.mergeSort
            (fun a b => decide (a.2.lastAccessed ≤ b.2.lastAccessed))).drop
          ((s.analyses.mergeSort
            (fun a b => decide (a.2.lastAccessed ≤ b.2.lastAccessed))).length
            - s.preferences.maxCacheSize) := by
      simp only [pruneCache, if_neg hlen]
    rw [hpc]
    have hperm := (List.mergeSort_perm s.analyses
      (fun a b : String × CacheEntry α =>
        decide (a.2.lastAccessed ≤ b.2.lastAccessed))).map Prod.fst
    have hnd2 := hperm.nodup_iff.mpr hnd
    exact hnd2.sublist ((List.drop_sublist _ _).map Prod.fst)

theorem mapGet_of_subset {α : Type} {m1 m2 : JSMap α}
    (hsub : ∀ p ∈ m2, p ∈ m1) (hnd : (m1.map Prod.fst).Nodup)
    {k : String} {v : α} (h : mapGet m2 k = some v) : mapGet m1 k = some v :=
  mem_mapGet_of_nodup m1 k v hnd (hsub _ (mapGet_eq_some_mem m2 k v h))

theorem pruneCache_preserves {α : Type} (s : StoreState α) (g : String → Nat)
    (t : Int) (hwf : StateWF s t) (hg : GhostOK s g) :
    StateWF (pruneCache s) t ∧ GhostOK (pruneCache s) g := by
  obtain ⟨hA, hP, hO, hnd⟩ := hwf
  refine ⟨⟨?_, ?_, ?_, ?_⟩, ?_⟩
  · intro p hp
    exact hA p (mem_of_pruneCache s p hp)
  · intro e he
    exact hP e (by rw [← pruneCache_pools s]; exact he)
  · intro p hp
    exact hO p (by rw [← pruneCache_ohlcv s]; exact hp)
  · exact pruneCache_keys_nodup s hnd
  · intro k e he
    exact hg k e (mapGet_of_subset (fun p hp => mem_of_pruneCache s p hp) hnd he)

theorem stepStore_invariant {α : Type} (s : StoreState α) (g : String → Nat)
    (op : StoreOp α) (t : Int) (hwf : StateWF s t) (hg : GhostOK s g)
    (ht : ∀ t2, opTime op = some t2 → t ≤ t2) :
    StateWF (stepStore s op) ((opTime op).getD t) ∧
    GhostOK (stepStore s op) (ghostStep s g op) := by
  obtain ⟨hA, hP, hO, hnd⟩ := hwf
  cases op with
  | getAnalysis k now =>
      have htn : t ≤ now := ht now rfl
      rcases hm : mapGet s.analyses k with _ | e
      · have hres : getCachedAnalysis k now s = (none, trackCacheMiss s) := by
          simp [getCachedAnalysis, hm]
        have hstep : stepStore s (.getAnalysis k now) = trackCacheMiss s := by
          simp [stepStore, hres]
        have hgs : ghostStep s g (.getAnalysis k now) = g := by
          simp [ghostStep, hres]
        rw [hstep, hgs]
        exact ⟨stateWF_of_fields rfl rfl rfl ⟨hA, hP, hO, hnd⟩ htn,
          ghostOK_of_fields rfl hg⟩
      · by_cases hst : isDataStale s now e.timestamp = true
        · have hres : getCachedAnalysis k now s
              = (none, trackCacheMiss { s with analyses := mapDelete s.analyses k }) := by
            simp [getCachedAnalysis, hm, hst]
          have hstep : stepStore s (.getAnalysis k now)
              = trackCacheMiss { s with analyses := mapDelete s.analyses k } := by
            simp [stepStore, hres]
          have hgs : ghostStep s g (.getAnalysis k now) = g := by
            simp [ghostStep, hres]
          rw [hstep, hgs]
          constructor
          · refine ⟨?_, ?_, ?_, ?_⟩
            · intro p hp
              have hp2 : p ∈ mapDelete s.analyses k := hp
              exact entryWF_mono (hA p ((mapDelete_sublist s.analyses k).subset hp2)) htn
            · intro e2 he2
              exact entryWF_mono (hP e2 he2) htn
            · intro p hp
              exact entryWF_mono (hO p hp) htn
            · exact List.Nodup.sublist ((mapDelete_sublist s.analyses k).map Prod.fst) hnd
          · intro k2 e2 he2
            have he3 : mapGet (mapDelete s.analyses k) k2 = some e2 := he2
            by_cases hk : k2 = k
            · subst hk
              rw [mapGet_mapDelete_self s.analyses k2 hnd] at he3
              cases he3
            · rw [mapGet_mapDelete_ne s.analyses k k2 hk] at he3
              exact hg k2 e2 he3
        · have hres : getCachedAnalysis k now s
              = (some e.data,
                 trackCacheHit
                   { s with analyses := mapSet s.analyses k (touchedEntry e now) }) := by
            simp [getCachedAnalysis, hm, hst]
          have hstep : stepStore s (.getAnalysis k now)
              = trackCacheHit
                  { s with analyses := mapSet s.analyses k (touchedEntry e now) } := by
            simp [stepStore, hres]
          have hgs : ghostStep s g (.getAnalysis k now)
              = fun k2 => if k2 = k then g k + 1 else g k2 := by
            simp [ghostStep, hres]
          have heWF : entryWF e t := hA (k, e) (mapGet_eq_some_mem _ _ _ hm)
          rw [hstep, hgs]
          constructor
          · refine ⟨?_, ?_, ?_, ?_⟩
            · intro p hp
              have hp2 : p ∈ mapSet s.analyses k (touchedEntry e now) := hp
              rcases mem_mapSet _ _ _ _ hp2 with hp3 | hp3
              · subst hp3
                exact ⟨le_trans heWF.1 (le_trans heWF.2 htn), le_refl now⟩
              · exact entryWF_mono (hA p hp3) htn
            · intro e2 he2
              exact entryWF_mono (hP e2 he2) htn
            · intro p hp
              exact entryWF_mono (hO p hp) htn
            · exact keys_nodup_mapSet _ _ _ hnd
          · intro k2 e2 he2
            have he3 : mapGet (mapSet s.analyses k (touchedEntry e now)) k2
                = some e2 := he2
            by_cases hk : k2 = k
            · subst hk
              rw [mapGet_mapSet_self] at he3
              have he4 := Option.some.inj he3
              rw [← he4]
              simp [touchedEntry, hg k2 e hm]
            · rw [mapGet_mapSet_ne _ _ _ _ hk] at he3
              simp only [if_neg hk]
              exact hg k2 e2 he3
  | setAnalysis k d now =>
      have htn : t ≤ now := ht now rfl
      have hwf1 : StateWF { s with analyses := mapSet s.analyses k (freshEntry d now) } now := by
        refine ⟨?_, ?_, ?_, ?_⟩
        · intro p hp
          have hp2 : p ∈ mapSet s.analyses k (freshEntry d now) := hp
          rcases mem_mapSet _ _ _ _ hp2 with hp3 | hp3
          · subst hp3
            exact ⟨le_refl now, le_refl now⟩
          · exact entryWF_mono (hA p hp3) htn
        · intro e2 he2
          exact entryWF_mono (hP e2 he2) htn
        · intro p hp
          exact entryWF_mono (hO p hp) htn
        · exact keys_nodup_mapSet _ _ _ hnd
      have hg1 : GhostOK { s with analyses := mapSet s.analyses k (freshEntry d now) }
          (ghostStep s g (.setAnalysis k d now)) := by
        intro k2 e2 he2
        have he3 : mapGet (mapSet s.analyses k (freshEntry d now)) k2 = some e2 := he2
        simp only [ghostStep]
        by_cases hk : k2 = k
        · subst hk
          rw [mapGet_mapSet_self] at he3
          have he4 := Option.some.inj he3
          rw [← he4]
          simp [freshEntry]
        · rw [mapGet_mapSet_ne _ _ _ _ hk] at he3
          simp only [if_neg hk]
          exact hg k2 e2 he3
      by_cases hcond : (mapSet s.analyses k (freshEntry d now)).length
          > s.preferences.maxCacheSize
      · have hstep : stepStore s (.setAnalysis k d now)
            = pruneCache { s with analyses := mapSet s.analyses k (freshEntry d now) } := by
          simp [stepStore, setCachedAnalysis, hcond]
        rw [hstep]
        exact pruneCache_preserves _ _ now hwf1 hg1
      · have hstep : stepStore s (.setAnalysis k d now)
            = { s with analyses := mapSet s.analyses k (freshEntry d now) } := by
          simp [stepStore, setCachedAnalysis, hcond]
        rw [hstep]
        exact ⟨hwf1, hg1⟩
  | getPoolsOp now =>
      have htn : t ≤ now := ht now rfl
      rcases hm : s.pools with _ | e
      · have hres : getCachedPools now s = (none, trackCacheMiss s) := by
          simp [getCachedPools, hm]
        have hstep : stepStore s (.getPoolsOp now) = trackCacheMiss s := by
          simp [stepStore, hres]
        rw [hstep]
        exact ⟨stateWF_of_fields rfl rfl rfl ⟨hA, hP, hO, hnd⟩ htn,
          ghostOK_of_fields rfl hg⟩
      · by_cases hst : isDataStale s now e.timestamp = true
        · have hres : getCachedPools now s
              = (none, trackCacheMiss { s with pools := none }) := by
            simp [getCachedPools, hm, hst]
          have hstep : stepStore s (.getPoolsOp now)
              = trackCacheMiss { s with pools := none } := by
            simp [stepStore, hres]
          rw [hstep]
          constructor
          · refine ⟨?_, ?_, ?_, ?_⟩
            · intro p hp
              exact entryWF_mono (hA p hp) htn
            · intro e2 he2
              cases he2
            · intro p hp
              exact entryWF_mono (hO p hp) htn
            · exact hnd
          · exact ghostOK_of_fields rfl hg
        · have hres : getCachedPools now s
              = (some e.data,
                 trackCacheHit { s with pools := some (touchedEntry e now) }) := by
            simp [getCachedPools, hm, hst]
          have hstep : stepStore s (.getPoolsOp now)
              = trackCacheHit { s with pools := some (touchedEntry e now) } := by
            simp [stepStore, hres]
          have heWF : entryWF e t := hP e hm
          rw [hstep]
          constructor
          · refine ⟨?_, ?_, ?_, ?_⟩
            · intro p hp
              exact entryWF_mono (hA p hp) htn
            · intro e2 he2
              have he3 : some (touchedEntry e now) = some e2 := he2
              rw [← Option.some.inj he3]
              exact ⟨le_trans heWF.1 (le_trans heWF.2 htn), le_refl now⟩
            · intro p hp
              exact entryWF_mono (hO p hp) htn
            · exact hnd
          · exact ghostOK_of_fields rfl hg
  | setPoolsOp d now =>
      have htn : t ≤ now := ht now rfl
      constructor
      · refine ⟨?_, ?_, ?_, ?_⟩
        · intro p hp
          exact entryWF_mono (hA p hp) htn
        · intro e2 he2
          have he3 : some (freshEntry d now) = some e2 := he2
          rw [← Option.some.inj he3]
          exact ⟨le_refl now, le_refl now⟩
        · intro p hp
          exact entryWF_mono (hO p hp) htn
        · exact hnd
      · exact ghostOK_of_fields rfl hg
  | getOHLCV k now =>
      have htn : t ≤ now := ht now rfl
      rcases hm : mapGet s.ohlcv k with _ | e
      · have hres : getCachedOHLCV k now s = (none, trackCacheMiss s) := by
          simp [getCachedOHLCV, hm]
        have hstep : stepStore s (.getOHLCV k now) = trackCacheMiss s := by
          simp [stepStore, hres]
        rw [hstep]
        exact ⟨stateWF_of_fields rfl rfl rfl ⟨hA, hP, hO, hnd⟩ htn,
          ghostOK_of_fields rfl hg⟩
      · by_cases hst : isDataStale s now e.timestamp = true
        · have hres : getCachedOHLCV k now s
              = (none, trackCacheMiss { s with ohlcv := mapDelete s.ohlcv k }) := by
            simp [getCachedOHLCV, hm, hst]
          have hstep : stepStore s (.getOHLCV k now)
              = trackCacheMiss { s with ohlcv := mapDelete s.ohlcv k } := by
            simp [stepStore, hres]
          rw [hstep]
          constructor
          · refine ⟨?_, ?_, ?_, ?_⟩
            · intro p hp
              exact entryWF_mono (hA p hp) htn
            · intro e2 he2
              exact entryWF_mono (hP e2 he2) htn
            · intro p hp
              have hp2 : p ∈ mapDelete s.ohlcv k := hp
              exact entryWF_mono (hO p ((mapDelete_sublist s.ohlcv k).subset hp2)) htn
            · exact hnd
          · exact ghostOK_of_fields rfl hg
        · have hres : getCachedOHLCV k now s
              = (some e.data,
                 trackCacheHit
                   { s with ohlcv := mapSet s.ohlcv k (touchedEntry e now) }) := by
            simp [getCachedOHLCV, hm, hst]
          have hstep : stepStore s (.getOHLCV k now)
              = trackCacheHit
                  { s with ohlcv := mapSet s.ohlcv k (touchedEntry e now) } := by
            simp [stepStore, hres]
          have heWF : entryWF e t := hO (k, e) (mapGet_eq_some_mem _ _ _ hm)
          rw [hstep]
          constructor
          · refine ⟨?_, ?_, ?_, ?_⟩
            · intro p hp
              exact entryWF_mono (hA p hp) htn
            · intro e2 he2
              exact entryWF_mono (hP e2 he2) htn
            · intro p hp
              have hp2 : p ∈ mapSet s.ohlcv k (touchedEntry e now) := hp
              rcases mem_mapSet _ _ _ _ hp2 with hp3 | hp3
              · subst hp3
                exact ⟨le_trans heWF.1 (le_trans heWF.2 htn), le_refl now⟩
              · exact entryWF_mono (hO p hp3) htn
            · exact hnd
          · exact ghostOK_of_fields rfl hg
  | setOHLCV k d now =>
      have htn : t ≤ now := ht now rfl
      constructor
      · refine ⟨?_, ?_, ?_, ?_⟩
        · intro p hp
          exact entryWF_mono (hA p hp) htn
        · intro e2 he2
          exact entryWF_mono (hP e2 he2) htn
        · intro p hp
          have hp2 : p ∈ mapSet s.ohlcv k (freshEntry d now) := hp
          rcases mem_mapSet _ _ _ _ hp2 with hp3 | hp3
          · subst hp3
            exact ⟨le_refl now, le_refl now⟩
          · exact entryWF_mono (hO p hp3) htn
        · exact hnd
      · exact ghostOK_of_fields rfl hg
  | clear =>
      constructor
      · refine ⟨?_, ?_, ?_, ?_⟩
        · intro p hp
          cases hp
        · intro e2 he2
          cases he2
        · intro p hp
          cases hp
        · exact List.nodup_nil
      · intro k2 e2 he2
        have he3 : mapGet ([] : JSMap (CacheEntry α)) k2 = some e2 := he2
        simp [mapGet] at he3
  | prune =>
      exact pruneCache_preserves s g t ⟨hA, hP, hO, hnd⟩ hg
  | setPrefs p =>
      exact ⟨stateWF_of_fields rfl rfl rfl ⟨hA, hP, hO, hnd⟩ (le_refl t),
        ghostOK_of_fields rfl hg⟩
  | trackRun d now =>
      have htn : t ≤ now := ht now rfl
      exact ⟨stateWF_of_fields rfl rfl rfl ⟨hA, hP, hO, hnd⟩ htn,
        ghostOK_of_fields rfl hg⟩

theorem runStoreG_invariant {α : Type} :
    ∀ (ops : List (StoreOp α)) (s : StoreState α) (g : String → Nat) (t : Int),
    StateWF s t → GhostOK s g → timesMono t ops = true →
    StateWF (runStoreG s g ops).1 (lastTime t ops) ∧
    GhostOK (runStoreG s g ops).1 (runStoreG s g ops).2 := by
  intro ops
  induction ops with
  | nil =>
      intro s g t hwf hg _
      exact ⟨hwf, hg⟩
  | cons op rest ih =>
      intro s g t hwf hg hmono
      cases hop : opTime op with
      | none =>
          have hrest : timesMono t rest = true := by
            simpa [timesMono, hop] using hmono
          have hstep := stepStore_invariant s g op t hwf hg
            (by intro t2 h2; rw [hop] at h2; cases h2)
          rw [hop] at hstep
          simp only [Option.getD_none] at hstep
          have hrun := ih (stepStore s op) (ghostStep s g op) t hstep.1 hstep.2 hrest
          simpa [runStoreG, lastTime, hop] using hrun
      | some t2 =>
          have hparts : t ≤ t2 ∧ timesMono t2 rest = true := by
            simpa [timesMono, hop, Bool.and_eq_true, decide_eq_true_eq] using hmono
          have hstep := stepStore_invariant s g op t hwf hg
            (by
              intro t3 h3
              rw [hop] at h3
              injection h3 with hh
              rw [← hh]
              exact hparts.1)
          rw [hop] at hstep
          simp only [Option.getD_some] at hstep
          have hrun := ih (stepStore s op) (ghostStep s g op) t2 hstep.1 hstep.2 hparts.2
          simpa [runStoreG, lastTime, hop] using hrun

/-- C10: in every store state reachable by a trace of cache operations
with a nondecreasing clock, every cache entry in every bucket satisfies
`lastAccessed ≥ timestamp`; and every analyses entry's `accessCount`
equals exactly the number of successful non-stale reads of its key since
it was last (re)created — the ghost count that bumps exactly when a `get`
of the key returns data, resets to zero on every `set` of the key, and
ignores misses and stale reads. -/
theorem C10_entry_invariant {α : Type} (ops : List (StoreOp α)) (t0 : Int)
    (hmono : timesMono t0 ops = true) :
    (∀ p ∈ (runStoreG (initialStoreState α) (fun _ => 0) ops).1.analyses,
        p.2.timestamp ≤ p.2.lastAccessed) ∧
    (∀ e, (runStoreG (initialStoreState α) (fun _ => 0) ops).1.pools = some e →
        e.timestamp ≤ e.lastAccessed) ∧
    (∀ p ∈ (runStoreG (initialStoreState α) (fun _ => 0) ops).1.ohlcv,
        p.2.timestamp ≤ p.2.lastAccessed) ∧
    (∀ k e,
        mapGet (runStoreG (initialStoreState α) (fun _ => 0) ops).1.analyses k
          = some e →
        e.accessCount = (runStoreG (initialStoreState α) (fun _ => 0) ops).2 k) := by
  have hwf0 : StateWF (initialStoreState α) t0 := by
    refine ⟨?_, ?_, ?_, ?_⟩
    · intro p hp
      cases hp
    · intro e he
      cases he
    · intro p hp
      cases hp
    · exact List.nodup_nil
  have hg0 : GhostOK (initialStoreState α) (fun _ => 0) := by
    intro k e he
    cases he
  obtain ⟨⟨hA, hP, hO, _⟩, hgh⟩ :=
    runStoreG_invariant ops (initialStoreState α) (fun _ => 0) t0 hwf0 hg0 hmono
  exact ⟨fun p hp => (hA p hp).1, fun e he => (hP e he).1,
    fun p hp => (hO p hp).1, hgh⟩

/-! ## C4: cache-key determinism and separation

The pieces: the decimal renderings are injective (via explicit decoders),
their character sets avoid the JSON delimiters, JSON escaping is the
identity on plain characters, and `btoa` is injective on Latin-1 strings
(via a base64 decoder), so the whole key is injective in `poolId` and the
eight influencing fields. -/

theorem strToNat_natStr (n : Nat) : strToNat (natStr n) = n := by
  by_cases h : n = 0
  · subst h
    decide
  · have hmap : ∀ d ∈ (Nat.digits 10 n).reverse,
        (decDigitVal ∘ digitChar10) d = id d := by
      intro d hd
      have hd10 : d < 10 := Nat.digits_lt_base (by norm_num) (List.mem_reverse.mp hd)
      unfold decDigitVal digitChar10
      interval_cases d <;> rfl
    unfold natStr strToNat
    rw [if_neg h]
    show Nat.ofDigits 10
      (((((Nat.digits 10 n).reverse).map digitChar10).map decDigitVal).reverse) = n
    rw [List.map_map, List.map_congr_left hmap, List.map_id, List.reverse_reverse,
      Nat.ofDigits_digits]

theorem natStr_inj {m n : Nat} (h : natStr m = natStr n) : m = n := by
  have h2 := congrArg strToNat h
  rwa [strToNat_natStr, strToNat_natStr] at h2

theorem natStr_chars (n : Nat) :
    ∀ c ∈ (natStr n).data, 48 ≤ c.toNat ∧ c.toNat ≤ 57 := by
  unfold natStr
  by_cases h : n = 0
  · subst h
    rw [if_pos rfl]
    intro c hc
    rw [show ("0" : String).data = ['0'] from rfl] at hc
    have hc0 : c = '0' := by simpa using hc
    subst hc0
    decide
  · rw [if_neg h]
    intro c hc
    have hc2 : c ∈ ((Nat.digits 10 n).reverse).map digitChar10 := hc
    rcases List.mem_map.mp hc2 with ⟨d, hd, rfl⟩
    have hd10 : d < 10 := Nat.digits_lt_base (by norm_num) (List.mem_reverse.mp hd)
    unfold digitChar10
    interval_cases d <;> decide

theorem natStr_ne_nil (n : Nat) : (natStr n).data ≠ [] := by
  unfold natStr
  by_cases h : n = 0
  · subst h
    rw [if_pos rfl]
    decide
  · rw [if_neg h]
    show (((Nat.digits 10 n).reverse).map digitChar10) ≠ []
    simp [List.map_eq_nil_iff, List.reverse_eq_nil_iff,
      Nat.digits_ne_nil_iff_ne_zero, h]

theorem intStr_chars (i : Int) :
    ∀ c ∈ (intStr i).data, (48 ≤ c.toNat ∧ c.toNat ≤ 57) ∨ c.toNat = 45 := by
  unfold intStr
  split
  · intro c hc
    rw [String.data_append, show ("-" : String).data = ['-'] from rfl,
      List.singleton_append] at hc
    rcases List.mem_cons.mp hc with rfl | hc2
    · right
      rfl
    · exact Or.inl (natStr_chars _ c hc2)
  · intro c hc
    exact Or.inl (natStr_chars _ c hc)

theorem intStr_inj {i j : Int} (h : intStr i = intStr j) : i = j := by
  have hdig : ∀ m : Nat, ('-' : Char) ∉ (natStr m).data := by
    intro m hmem
    have h2 := natStr_chars m '-' hmem
    revert h2
    decide
  unfold intStr at h
  by_cases hi : i < 0 <;> by_cases hj : j < 0
  · rw [if_pos hi, if_pos hj] at h
    have h2 := congrArg String.data h
    simp only [String.data_append] at h2
    have h4 := natStr_inj (String.ext (List.append_cancel_left h2))
    omega
  · rw [if_pos hi, if_neg hj] at h
    have h2 := congrArg String.data h
    rw [String.data_append, show ("-" : String).data = ['-'] from rfl,
      List.singleton_append] at h2
    exact absurd (h2 ▸ List.mem_cons_self '-' (natStr i.natAbs).data) (hdig j.natAbs)
  · rw [if_neg hi, if_pos hj] at h
    have h2 := congrArg String.data h
    rw [String.data_append, show ("-" : String).data = ['-'] from rfl,
      List.singleton_append] at h2
    exact absurd (h2.symm ▸ List.mem_cons_self '-' (natStr j.natAbs).data)
      (hdig i.natAbs)
  · rw [if_neg hi, if_neg hj] at h
    have h4 := natStr_inj h
    omega

theorem jsNumStr_chars (q : ℚ) :
    ∀ c ∈ (jsNumStr q).data,
      (48 ≤ c.toNat ∧ c.toNat ≤ 57) ∨ c.toNat = 45 ∨ c.toNat = 47 := by
  unfold jsNumStr
  split
  · intro c hc
    rcases intStr_chars q.num c hc with h | h
    · exact Or.inl h
    · exact Or.inr (Or.inl h)
  · intro c hc
    rw [String.data_append, String.data_append] at hc
    rcases List.mem_append.mp hc with hc2 | hc2
    · rcases List.mem_append.mp hc2 with hc3 | hc3
      · rcases intStr_chars q.num c hc3 with h | h
        · exact Or.inl h
        · exact Or.inr (Or.inl h)
      · rw [show ("/" : String).data = ['/'] from rfl] at hc3
        have : c = '/' := by simpa using hc3
        subst this
        exact Or.inr (Or.inr rfl)
    · exact Or.inl (natStr_chars _ c hc2)

theorem append_sep_inj {sep : Char} :
    ∀ {a a2 b b2 : List Char}, sep ∉ a → sep ∉ a2 →
      a ++ sep :: b = a2 ++ sep :: b2 → a = a2 ∧ b = b2 := by
  intro a
  induction a with
  | nil =>
      intro a2 b b2 _ ha2 h
      cases a2 with
      | nil => simpa using h
      | cons x xs =>
          simp only [List.nil_append, List.cons_append, List.cons.injEq] at h
          obtain ⟨h1, _⟩ := h
          subst h1
          exact absurd (List.mem_cons_self _ _) ha2
  | cons y ys ih =>
      intro a2 b b2 ha ha2 h
      cases a2 with
      | nil =>
          simp only [List.nil_append, List.cons_append, List.cons.injEq] at h
          obtain ⟨h1, _⟩ := h
          subst h1
          exact absurd (List.mem_cons_self _ _) ha
      | cons z zs =>
          simp only [List.cons_append, List.cons.injEq] at h
          obtain ⟨h1, h2⟩ := h
          subst h1
          have ha3 : sep ∉ ys := fun hm => ha (List.mem_cons_of_mem _ hm)
          have ha4 : sep ∉ zs := fun hm => ha2 (List.mem_cons_of_mem _ hm)
          obtain ⟨hh1, hh2⟩ := ih ha3 ha4 h2
          exact ⟨by rw [hh1], hh2⟩

theorem jsNumStr_inj {q r : ℚ} (h : jsNumStr q = jsNumStr r) : q = r := by
  have hslash : ∀ i : Int, ('/' : Char) ∉ (intStr i).data := by
    intro i hmem
    rcases intStr_chars i '/' hmem with h2 | h2 <;> revert h2 <;> decide
  unfold jsNumStr at h
  by_cases hq : q.den = 1 <;> by_cases hr : r.den = 1
  · rw [if_pos hq, if_pos hr] at h
    exact Rat.ext (intStr_inj h) (by rw [hq, hr])
  · rw [if_pos hq, if_neg hr] at h
    have h2 := congrArg String.data h
    rw [String.data_append, String.data_append,
      show ("/" : String).data = ['/'] from rfl] at h2
    have hmem : ('/' : Char) ∈ (intStr q.num).data := by
      rw [h2]
      simp
    exact absurd hmem (hslash q.num)
  · rw [if_neg hq, if_pos hr] at h
    have h2 := congrArg String.data h
    rw [String.data_append, String.data_append,
      show ("/" : String).data = ['/'] from rfl] at h2
    have hmem : ('/' : Char) ∈ (intStr r.num).data := by
      rw [← h2]
      simp
    exact absurd hmem (hslash r.num)
  · rw [if_neg hq, if_neg hr] at h
    have h2 := congrArg String.data h
    simp only [String.data_append, show ("/" : String).data = ['/'] from rfl,
      List.append_assoc, List.singleton_append] at h2
    obtain ⟨h3, h4⟩ := append_sep_inj (hslash q.num) (hslash r.num) h2
    exact Rat.ext (intStr_inj (String.ext h3)) (natStr_inj (String.ext h4))

theorem jsBoolStr_data_inj {b1 b2 : Bool}
    (h : (jsBoolStr b1).data = (jsBoolStr b2).data) : b1 = b2 := by
  cases b1 <;> cases b2 <;> first
    | rfl
    | exact absurd h (by decide)

theorem comma_not_mem_jsNumStr (q : ℚ) : (',' : Char) ∉ (jsNumStr q).data := by
  intro hmem
  rcases jsNumStr_chars q ',' hmem with h | h | h <;> revert h <;> decide

theorem comma_not_mem_jsBoolStr (b : Bool) : (',' : Char) ∉ (jsBoolStr b).data := by
  cases b <;> decide

theorem sep_num_field {q1 q2 : ℚ} {T1 T2 : List Char}
    (h : (jsNumStr q1).data ++ ',' :: T1 = (jsNumStr q2).data ++ ',' :: T2) :
    q1 = q2 ∧ T1 = T2 := by
  obtain ⟨h3, h4⟩ := append_sep_inj (comma_not_mem_jsNumStr q1)
    (comma_not_mem_jsNumStr q2) h
  exact ⟨jsNumStr_inj (String.ext h3), h4⟩

theorem sep_bool_field {b1 b2 : Bool} {T1 T2 : List Char}
    (h : (jsBoolStr b1).data ++ ',' :: T1 = (jsBoolStr b2).data ++ ',' :: T2) :
    b1 = b2 ∧ T1 = T2 := by
  obtain ⟨h3, h4⟩ := append_sep_inj (comma_not_mem_jsBoolStr b1)
    (comma_not_mem_jsBoolStr b2) h
  exact ⟨jsBoolStr_data_inj h3, h4⟩

theorem last_bool_field {b1 b2 : Bool} {E : List Char}
    (h : (jsBoolStr b1).data ++ E = (jsBoolStr b2).data ++ E) : b1 = b2 :=
  jsBoolStr_data_inj (List.append_cancel_right h)

theorem cancel_pool_field {s1 s2 : String} (hp1 : PlainLatin1 s1)
    (hp2 : PlainLatin1 s2) {T1 T2 : List Char}
    (h : s1.data ++ '"' :: T1 = s2.data ++ '"' :: T2) : s1 = s2 ∧ T1 = T2 := by
  have hq1 : ('"' : Char) ∉ s1.data := fun hm => (hp1 _ hm).2.2.1 rfl
  have hq2 : ('"' : Char) ∉ s2.data := fun hm => (hp2 _ hm).2.2.1 rfl
  obtain ⟨h3, h4⟩ := append_sep_inj hq1 hq2 h
  exact ⟨String.ext h3, h4⟩

theorem jsonEscapeChar_plain {c : Char} (h : PlainChar c) :
    jsonEscapeChar c = [c] := by
  obtain ⟨h1, h2, h3, h4⟩ := h
  have hb : c ≠ '\x08' := by
    intro hh
    subst hh
    exact absurd h1 (by decide)
  have ht : c ≠ '\x09' := by
    intro hh
    subst hh
    exact absurd h1 (by decide)
  have hn : c ≠ '\x0a' := by
    intro hh
    subst hh
    exact absurd h1 (by decide)
  have hf : c ≠ '\x0c' := by
    intro hh
    subst hh
    exact absurd h1 (by decide)
  have hr : c ≠ '\x0d' := by
    intro hh
    subst hh
    exact absurd h1 (by decide)
  have hc : ¬ (c.toNat < 32) := by omega
  unfold jsonEscapeChar
  rw [if_neg h3, if_neg h4, if_neg hb, if_neg ht, if_neg hn, if_neg hf, if_neg hr,
    if_neg hc]

theorem jsonStringLit_plain {s : String} (h : PlainLatin1 s) :
    jsonStringLit s = "\"" ++ s ++ "\"" := by
  unfold jsonStringLit
  have hdata : ∀ l : List Char, (∀ c ∈ l, PlainChar c) →
      l.flatMap jsonEscapeChar = l := by
    intro l hl
    induction l with
    | nil => rfl
    | cons c cs ih =>
        rw [List.flatMap_cons, jsonEscapeChar_plain (hl c (List.mem_cons_self c cs)),
          ih (fun c2 hc2 => hl c2 (List.mem_cons_of_mem c hc2))]
        rfl
  rw [hdata s.data h]

theorem base64CharDec_eq : ∀ v : Fin 64, base64CharDec (base64Char v.1) = v.1 := by
  decide

theorem base64CharDec_of_lt {v : Nat} (h : v < 64) :
    base64CharDec (base64Char v) = v :=
  base64CharDec_eq ⟨v, h⟩

theorem base64Char_ne_pad : ∀ v : Fin 64, base64Char v.1 ≠ '=' := by
  decide

theorem base64Char_ne_pad_of_lt {v : Nat} (h : v < 64) : base64Char v ≠ '=' :=
  base64Char_ne_pad ⟨v, h⟩

theorem base64Encode_ne_nil {bs : List Nat} (h : bs ≠ []) :
    base64Encode bs ≠ [] := by
  match bs with
  | [] => exact absurd rfl h
  | [b1] => simp [base64Encode]
  | [b1, b2] => simp [base64Encode]
  | b1 :: b2 :: b3 :: rest => simp [base64Encode]

theorem base64Decode_encode :
    ∀ (n : Nat) (bs : List Nat), bs.length ≤ n → (∀ b ∈ bs, b < 256) →
      base64Decode (base64Encode bs) = bs := by
  intro n
  induction n with
  | zero =>
      intro bs hlen _
      have hnil : bs = [] := List.length_eq_zero.mp (Nat.le_zero.mp hlen)
      subst hnil
      rfl
  | succ n ih =>
      intro bs hlen hb
      match bs with
      | [] => rfl
      | [b1] =>
          have hb1 : b1 < 256 := hb b1 (by simp)
          have h1 : b1 / 4 < 64 := by omega
          have h2 : b1 % 4 * 16 < 64 := by omega
          simp [base64Encode, base64Decode, base64CharDec_of_lt h1,
            base64CharDec_of_lt h2]
          omega
      | [b1, b2] =>
          have hb1 : b1 < 256 := hb b1 (by simp)
          have hb2 : b2 < 256 := hb b2 (by simp)
          have h1 : b1 / 4 < 64 := by omega
          have h2 : b1 % 4 * 16 + b2 / 16 < 64 := by omega
          have h3 : b2 % 16 * 4 < 64 := by omega
          simp [base64Encode, base64Decode, base64CharDec_of_lt h1,
            base64CharDec_of_lt h2, base64CharDec_of_lt h3,
            base64Char_ne_pad_of_lt h3]
          omega
      | b1 :: b2 :: b3 :: rest =>
          have hb1 : b1 < 256 := hb b1 (by simp)
          have hb2 : b2 < 256 := hb b2 (by simp)
          have hb3 : b3 < 256 := hb b3 (by simp)
          have h1 : b1 / 4 < 64 := by omega
          have h2 : b1 % 4 * 16 + b2 / 16 < 64 := by omega
          have h3 : b2 % 16 * 4 + b3 / 64 < 64 := by omega
          have h4 : b3 % 64 < 64 := by omega
          by_cases hrest : rest = []
          · subst hrest
            simp [base64Encode, base64Decode, base64CharDec_of_lt h1,
              base64CharDec_of_lt h2, base64CharDec_of_lt h3,
              base64CharDec_of_lt h4, base64Char_ne_pad_of_lt h3,
              base64Char_ne_pad_of_lt h4]
            omega
          · have hne := base64Encode_ne_nil hrest
            have hlen2 : rest.length ≤ n := by
              simp only [List.length_cons] at hlen
              omega
            have hrec := ih rest hlen2 (fun b hbm => hb b (by simp [hbm]))
            simp [base64Encode, base64Decode, hne, base64CharDec_of_lt h1,
              base64CharDec_of_lt h2, base64CharDec_of_lt h3,
              base64CharDec_of_lt h4, hrec]
            omega

theorem charToNat_injective : Function.Injective Char.toNat := by
  intro a b h
  exact Char.ext (UInt32.ext h)

theorem btoa_inj {s1 s2 : String}
    (h1 : ∀ c ∈ s1.data, c.toNat < 256) (h2 : ∀ c ∈ s2.data, c.toNat < 256)
    (h : btoa s1 = btoa s2) : s1 = s2 := by
  unfold btoa at h
  have hd : base64Encode (s1.data.map Char.toNat)
      = base64Encode (s2.data.map Char.toNat) := congrArg String.data h
  have hr1 := base64Decode_encode (s1.data.map Char.toNat).length
    (s1.data.map Char.toNat) (le_refl _)
    (by
      intro b hbm
      rcases List.mem_map.mp hbm with ⟨c, hc, rfl⟩
      exact h1 c hc)
  have hr2 := base64Decode_encode (s2.data.map Char.toNat).length
    (s2.data.map Char.toNat) (le_refl _)
    (by
      intro b hbm
      rcases List.mem_map.mp hbm with ⟨c, hc, rfl⟩
      exact h2 c hc)
  have hbytes : s1.data.map Char.toNat = s2.data.map Char.toNat := by
    rw [← hr1, ← hr2, hd]
  exact String.ext (List.map_injective_iff.mpr charToNat_injective hbytes)

theorem latin1_append {a b : String} (ha : ∀ c ∈ a.data, c.toNat < 256)
    (hb : ∀ c ∈ b.data, c.toNat < 256) :
    ∀ c ∈ (a ++ b).data, c.toNat < 256 := by
  intro c hc
  rw [String.data_append] at hc
  rcases List.mem_append.mp hc with h | h
  · exact ha c h
  · exact hb c h

theorem jsNumStr_latin1 (q : ℚ) : ∀ c ∈ (jsNumStr q).data, c.toNat < 256 := by
  intro c hc
  rcases jsNumStr_chars q c hc with h | h | h <;> omega

theorem jsBoolStr_latin1 (b : Bool) : ∀ c ∈ (jsBoolStr b).data, c.toNat < 256 := by
  cases b <;> decide

theorem jsonStringifyKeyData_latin1 {k : KeyData} (hp : PlainLatin1 k.poolId) :
    ∀ c ∈ (jsonStringifyKeyData k).data, c.toNat < 256 := by
  unfold jsonStringifyKeyData
  rw [jsonStringLit_plain hp]
  repeat
    first
      | apply latin1_append
      | exact fun c hc => (hp c hc).2.1
      | exact jsNumStr_latin1 _
      | exact jsBoolStr_latin1 _
      | decide

theorem jsonStringifyKeyData_inj {k1 k2 : KeyData}
    (hp1 : PlainLatin1 k1.poolId) (hp2 : PlainLatin1 k2.poolId)
    (h : jsonStringifyKeyData k1 = jsonStringifyKeyData k2) :
    k1.poolId = k2.poolId ∧ k1.priceLower = k2.priceLower ∧
    k1.priceUpper = k2.priceUpper ∧ k1.liquidityUsd = k2.liquidityUsd ∧
    k1.bearCaseDrop = k2.bearCaseDrop ∧ k1.bullCaseRise = k2.bullCaseRise ∧
    k1.timeHorizonDays = k2.timeHorizonDays ∧ k1.advancedMode = k2.advancedMode ∧
    k1.backtestMode = k2.backtestMode := by
  unfold jsonStringifyKeyData at h
  rw [jsonStringLit_plain hp1, jsonStringLit_plain hp2] at h
  have hd := congrArg String.data h
  simp only [String.data_append, List.append_assoc, List.cons_append,
    List.singleton_append, List.nil_append, List.cons.injEq, true_and] at hd
  obtain ⟨hpool, hd2⟩ := cancel_pool_field hp1 hp2 hd
  simp only [List.cons.injEq, true_and] at hd2
  obtain ⟨hPL, hd3⟩ := sep_num_field hd2
  simp only [List.cons.injEq, true_and] at hd3
  obtain ⟨hPU, hd4⟩ := sep_num_field hd3
  simp only [List.cons.injEq, true_and] at hd4
  obtain ⟨hLU, hd5⟩ := sep_num_field hd4
  simp only [List.cons.injEq, true_and] at hd5
  obtain ⟨hBD, hd6⟩ := sep_num_field hd5
  simp only [List.cons.injEq, true_and] at hd6
  obtain ⟨hBR, hd7⟩ := sep_num_field hd6
  simp only [List.cons.injEq, true_and] at hd7
  obtain ⟨hTH, hd8⟩ := sep_num_field hd7
  simp only [List.cons.injEq, true_and] at hd8
  obtain ⟨hAM, hd9⟩ := sep_bool_field hd8
  simp only [List.cons.injEq, true_and] at hd9
  have hBM := last_bool_field hd9
  exact ⟨hpool, hPL, hPU, hLU, hBD, hBR, hTH, hAM, hBM⟩

/-- C4: cache-key determinism and separation.  `generateCacheKey` is a
pure function, so calling it twice on the same `poolId` and structurally
equal forms yields the identical string; for plain Latin-1 pool ids the
key is *injective* in the `poolId` argument and the eight influencing
form fields, so two calls differing in any of them yield different
strings; and the one field outside that subset — `form.poolId`, which the
source never reads — never influences the key. -/
theorem C4_cache_key (p1 p2 : String) (f1 f2 : LPStrategyForm)
    (hp1 : PlainLatin1 p1) (hp2 : PlainLatin1 p2) :
    (generateCacheKey p1 f1 = generateCacheKey p1 f1) ∧
    (generateCacheKey p1 f1 = generateCacheKey p2 f2 →
      p1 = p2 ∧ f1.priceLower = f2.priceLower ∧ f1.priceUpper = f2.priceUpper ∧
      f1.liquidityUsd = f2.liquidityUsd ∧ f1.bearCaseDrop = f2.bearCaseDrop ∧
      f1.bullCaseRise = f2.bullCaseRise ∧
      f1.timeHorizonDays = f2.timeHorizonDays ∧
      f1.advancedMode = f2.advancedMode ∧ f1.backtestMode = f2.backtestMode) ∧
    (∀ x y : String,
      generateCacheKey p1 { f1 with poolId := x }
        = generateCacheKey p1 { f1 with poolId := y }) := by
  refine ⟨rfl, ?_, fun x y => rfl⟩
  intro h
  unfold generateCacheKey at h
  have hjson := btoa_inj (jsonStringifyKeyData_latin1 hp1)
    (jsonStringifyKeyData_latin1 hp2) h
  exact jsonStringifyKeyData_inj hp1 hp2 hjson

/-- Witness for C4: with the repository's default form and real pool id,
changing `priceLower` changes the key, while changing the unread
`form.poolId` field does not. -/
theorem C4_cache_key_witness :
    generateCacheKey "0.0.3964804" defaultForm
      ≠ generateCacheKey "0.0.3964804" ({ defaultForm with priceLower := 23 / 100 }) ∧
    generateCacheKey "0.0.3964804" ({ defaultForm with poolId := "a" })
      = generateCacheKey "0.0.3964804" ({ defaultForm with poolId := "b" }) := by
  have hp : PlainLatin1 "0.0.3964804" := by
    unfold PlainLatin1 PlainChar
    decide
  constructor
  · intro h
    have hfields := (C4_cache_key "0.0.3964804" "0.0.3964804" defaultForm
      ({ defaultForm with priceLower := 23 / 100 }) hp hp).2.1 h
    have hpl : defaultForm.priceLower = 23 / 100 := hfields.2.1
    norm_num [defaultForm] at hpl
  · exact (C4_cache_key "0.0.3964804" "0.0.3964804" defaultForm defaultForm
      hp hp).2.2 "a" "b"

/-- Witness for C10 on the concrete trace `c10ops` (monotone clock,
two hits, one reset, one stale read). -/
theorem C10_entry_invariant_witness :
    (∀ p ∈ (runStoreG (initialStoreState Unit) (fun _ => 0) c10ops).1.analyses,
        p.2.timestamp ≤ p.2.lastAccessed) ∧
    (∀ k e,
        mapGet (runStoreG (initialStoreState Unit) (fun _ => 0) c10ops).1.analyses k
          = some e →
        e.accessCount = (runStoreG (initialStoreState Unit) (fun _ => 0) c10ops).2 k) := by
  have h := C10_entry_invariant c10ops 0 (by decide)
  exact ⟨h.1, h.2.2.2⟩

end HederaLP
